import Mathlib

/-!
Verification development for the WorldSeedr procedural world-generation
kernel.  The definitions below are a shallow embedding of the TypeScript
source (module `WorldSeedr`): JS numbers are modelled as `ℚ`, optional or
absent object keys as `Option`, the injected random source as an explicit
stream `ℕ → ℚ` together with a cursor, and the unbounded `while` loops and
recursive schema expansion with an explicit fuel parameter (`Res.ranOut`
marks fuel exhaustion, which the source has no counterpart for; `Res.err`
marks the places where the source throws).
-/

namespace WorldSeedr

/-- The four cardinal directions used for packing ("top", "right", "bottom",
"left" in the source). -/
inductive Direction where
  | top
  | right
  | bottom
  | left
  deriving DecidableEq, Repr

/-- Child types: "Known", "Random", "Final". -/
inductive ChildType where
  | Known
  | Random
  | Final
  deriving DecidableEq, Repr

/-- Content modes: "Certain", "Repeat", "Random", "Multiple".  (The source
dispatches on a string and throws on an unknown mode; the sum type makes
that branch unrepresentable.) -/
inductive Mode where
  | Certain
  | Repeat
  | Random
  | Multiple
  deriving DecidableEq, Repr

/-- A key/value argument map attached to a choice (values modelled as
numbers; their content is never inspected by the generator except when
`stretch` writes `width`/`height` into it). -/
abbrev ArgMap := List (String × ℚ)

/-- One entry of a weighted `arguments` list (`IArgumentPossibility`):
`values` plus a `percent` weight. -/
structure WeightedArgs where
  values : ArgMap
  percent : ℚ
  deriving DecidableEq, Repr

/-- `choice.arguments`: either a plain map or a weighted list of maps. -/
inductive ChoiceArgs where
  | val (m : ArgMap)
  | weighted (l : List WeightedArgs)
  deriving DecidableEq, Repr

/-- Per-child `sizing` override (`choice.sizing[name]` is used when it is
not `undefined`). -/
structure SizingSpec where
  width : Option ℚ := none
  height : Option ℚ := none
  deriving DecidableEq, Repr

/-- Per-child `stretch` flags. -/
structure StretchSpec where
  width : Bool := false
  height : Bool := false
  deriving DecidableEq, Repr

/-- The value stored in a weighted spacing option: the source hands it to
`parseSpacingObject`, which accepts only a number or a `{min, max, units?}`
object. -/
inductive SpacingValue where
  | num (n : ℚ)
  | obj (min max : ℚ) (units : Option ℚ)
  deriving DecidableEq, Repr

/-- One entry of a weighted spacing list (`IPossibilitySpacingOption`). -/
structure SpacingOption where
  value : SpacingValue
  percent : ℚ
  deriving DecidableEq, Repr

/-- The polymorphic `Spacing` runtime value: a plain number, a two-element
numeric array `[min, max]`, a weighted list, a `{min, max, units?}` object,
or any other (unrecognised) runtime value, modelled by `other` carrying a
string.  The source discriminates on `spacing.constructor`. -/
inductive Spacing where
  | num (n : ℚ)
  | pair (lo hi : ℚ)
  | options (l : List SpacingOption)
  | obj (min max : ℚ) (units : Option ℚ)
  | other (s : String)
  deriving DecidableEq, Repr

/-- What `parseSpacing` actually hands back at runtime: a number, or (for an
unrecognised form that falls into the `default` switch branch) the original
non-numeric value unchanged. -/
inductive SpacingOutcome where
  | num (n : ℚ)
  | str (s : String)
  deriving DecidableEq, Repr

/-- `IPossibilityChild`: a reference from inside a schema's content list. -/
structure PossibilityChild where
  title : String
  type : ChildType
  percent : ℚ := 0
  source : Option String := none
  sizing : Option SizingSpec := none
  stretch : Option StretchSpec := none
  arguments : Option ChoiceArgs := none
  deriving DecidableEq, Repr

/-- `IPossibilityContents`. -/
structure PossibilityContents where
  mode : Mode
  direction : Option Direction := none
  spacing : Option Spacing := none
  snap : Option Direction := none
  limit : Option ℚ := none
  children : List PossibilityChild := []
  deriving DecidableEq, Repr

/-- `IPossibility`: a named schema with dimensions and contents. -/
structure Possibility where
  width : ℚ
  height : ℚ
  contents : PossibilityContents
  deriving DecidableEq, Repr

/-- The possibility container, keyed by title (`possibilities[name]`;
`none` models a missing key). -/
abbrev Library := String → Option Possibility

/-- An `IPosition`/`ICommand` object as passed to `generate`: the four
required edges plus the optional keys the generator reads or merges
(`width`, `height`, `title`). -/
structure Command where
  top : ℚ
  right : ℚ
  bottom : ℚ
  left : ℚ
  width : Option ℚ := none
  height : Option ℚ := none
  title : Option String := none
  deriving DecidableEq, Repr

/-- The flat part of an `IChoice` object: metadata plus the bounding box.
Keys the source leaves `undefined` are `none`. -/
structure ChoiceBox where
  title : Option String := none
  type : Option ChildType := none
  arguments : Option ChoiceArgs := none
  width : Option ℚ := none
  height : Option ℚ := none
  top : ℚ := 0
  right : ℚ := 0
  bottom : ℚ := 0
  left : ℚ := 0
  deriving DecidableEq, Repr

/-- A full `IChoice`: the flat box plus the recursive `contents` (assigned
for non-Known children in Certain/Repeat mode) and `children` (assigned by
`wrapChoicePositionExtremes`). -/
inductive Choice where
  | node (box : ChoiceBox) (contents : Option Choice) (children : Option (List Choice))

/-- The flat part of a Choice. -/
def Choice.box : Choice → ChoiceBox
  | .node b _ _ => b

/-- The recursive `contents` key of a Choice. -/
def Choice.contents : Choice → Option Choice
  | .node _ c _ => c

/-- The `children` key of a Choice. -/
def Choice.children : Choice → Option (List Choice)
  | .node _ _ c => c

def Choice.top (c : Choice) : ℚ := c.box.top
def Choice.right (c : Choice) : ℚ := c.box.right
def Choice.bottom (c : Choice) : ℚ := c.box.bottom
def Choice.left (c : Choice) : ℚ := c.box.left

/-- An injected random stream: `rng k` is the value of the `k`-th call to
`this.random()`, assumed (by §6 of the spec) to lie in `[0, 1)`. -/
abbrev Rng := ℕ → ℚ

/-- Result of a driver computation: a value, a thrown error (the source's
`throw new Error(...)` and `TypeError`s), or fuel exhaustion (a JS run that
has not terminated within the allotted fuel). -/
inductive Res (α : Type) where
  | ok (val : α)
  | err (msg : String)
  | ranOut
  deriving Repr

/-! Randomisation utilities (`randomPercentage`, `randomBetween`). -/

/-- `Math.floor(this.random() * 100) + 1`: a number in `[1, 100]`. -/
def randomPercentage (rng : Rng) (k : ℕ) : ℚ :=
  (⌊rng k * 100⌋ : ℚ) + 1

/-- `Math.floor(this.random() * (1 + max - min)) + min`. -/
def randomBetween (mn mx : ℚ) (rng : Rng) (k : ℕ) : ℚ :=
  (⌊rng k * (1 + mx - mn)⌋ : ℚ) + mn

/-! The weighted chooser (`chooseAmong`, `chooseAmongPosition`). -/

/-- The accumulation loop of `chooseAmong`: walk the list adding each
`percent` to `sum` and return the first element whose running sum reaches
the drawn goal (`if (sum >= choice) return choices[i]`). -/
def chooseAmongLoop (percent : α → ℚ) (goal : ℚ) : ℚ → List α → Option α
  | _, [] => none
  | sum, c :: rest =>
    let sum' := sum + percent c
    if goal ≤ sum' then some c else chooseAmongLoop percent goal sum' rest

/-- `chooseAmong`: `undefined` on an empty list, the single element of a
one-element list (no random draw), otherwise one `randomPercentage` draw
followed by the accumulation walk (`undefined` when no sum reaches the
goal).  Returns the chosen element together with the advanced rng cursor. -/
def chooseAmong (percent : α → ℚ) (choices : List α) (rng : Rng) (k : ℕ) :
    Option α × ℕ :=
  if choices.length = 0 then (none, k)
  else if choices.length = 1 then (choices.head?, k)
  else
    let goal := randomPercentage rng k
    (chooseAmongLoop percent goal 0 choices, k + 1)

/-- `choiceFitsSize` on possibly-`undefined` dimensions: in JS,
`undefined <= n` is false, so a missing dimension never fits. -/
def optionalFits (dim : Option ℚ) (bound : ℚ) : Bool :=
  match dim with
  | none => false
  | some d => decide (d ≤ bound)

/-- `choiceFitsSize(choice, width, height)` for a schema (`IPossibility`),
whose dimensions are always present. -/
def choiceFitsSize (w h : ℚ) (width height : ℚ) : Bool :=
  decide (w ≤ width) && decide (h ≤ height)

/-- `choiceFitsPosition(choice, position)` for a parsed `IChoice` box. -/
def choiceFitsPosition (c : ChoiceBox) (position : Command) : Bool :=
  optionalFits c.width (position.right - position.left) &&
    optionalFits c.height (position.top - position.bottom)

/-- `chooseAmongPosition`: filter the children to those whose referenced
schema fits the position's width and height, then `chooseAmong`.  The
source's filter reads `possibilities[choice.title].width`, so a child whose
title is missing from the library makes the filter itself throw a
`TypeError` (it is not silently skipped); that is the `err` branch. -/
def chooseAmongPosition (lib : Library) (choices : List PossibilityChild)
    (position : Command) (rng : Rng) (k : ℕ) :
    Res (Option PossibilityChild × ℕ) :=
  let width := position.right - position.left
  let height := position.top - position.bottom
  if choices.all fun c => (lib c.title).isSome then
    .ok (chooseAmong (·.percent)
      (choices.filter fun c =>
        match lib c.title with
        | some s => choiceFitsSize s.width s.height width height
        | none => false)
      rng k)
  else
    .err "TypeError: possibilities[choice.title] is undefined"

/-! Position utilities (`positionIsNotEmpty`, spacing parsing,
`shrinkPositionByChild`, `movePositionBySpacing`). -/

/-- `positionIsNotEmpty`: horizontal room for left/right, vertical room
otherwise (an absent direction falls into the `else` branch, exactly as
`switch`/`if` on `undefined` does in the source). -/
def positionIsNotEmpty (position : Command) (direction : Option Direction) :
    Bool :=
  if direction = some .right ∨ direction = some .left then
    decide (position.left < position.right)
  else
    decide (position.top > position.bottom)

/-- JS falsiness of a `Spacing` value (`if (!spacing) return 0`): the
number `0` and the empty string are falsy; arrays and objects are always
truthy. -/
def spacingFalsy : Spacing → Bool
  | .num n => decide (n = 0)
  | .other s => decide (s = "")
  | _ => false

/-- `parseSpacingObject` on the value stored in a weighted option or built
from a `[min, max]` draw: a number is returned as-is; a `{min, max, units?}`
object draws `randomBetween(min / units, max / units) * units`, where
`units || 1` makes both a missing and a zero `units` behave as `1`. -/
def parseSpacingObject (v : SpacingValue) (rng : Rng) (k : ℕ) : ℚ × ℕ :=
  match v with
  | .num n => (n, k)
  | .obj mn mx units =>
    let u := match units with
      | none => 1
      | some x => if x = 0 then 1 else x
    (randomBetween (mn / u) (mx / u) rng k * u, k + 1)

/-- `parseSpacing`: falsy spacing resolves to `0`; a two-element numeric
array becomes a `randomBetween` draw; a weighted list picks one option with
`chooseAmong` and resolves its `value` (when `chooseAmong` yields
`undefined` the source dereferences `.value` of `undefined`, modelled as
`none`); a `{min, max, units?}` object goes to `parseSpacingObject`; every
other value falls into the `default` branch, commented "Case: Number" in
the source, and is returned unchanged. -/
def parseSpacing (spacing : Spacing) (rng : Rng) (k : ℕ) :
    Option SpacingOutcome × ℕ :=
  if spacingFalsy spacing then (some (.num 0), k)
  else
    match spacing with
    | .pair lo hi =>
      let r := randomBetween lo hi rng k
      (some (.num r), k + 1)
    | .options l =>
      match chooseAmong (·.percent) l rng k with
      | (some o, k') =>
        let (n, k'') := parseSpacingObject o.value rng k'
        (some (.num n), k'')
      | (none, k') => (none, k')
    | .obj mn mx units =>
      let (n, k') := parseSpacingObject (.obj mn mx units) rng k
      (some (.num n), k')
    | .num n => (some (.num n), k)
    | .other s => (some (.str s), k)

/-- `parseSpacing` restricted to runs that actually produce a number: the
driver adds a resolved spacing to edge coordinates, and a non-numeric
outcome (string concatenation in JS) or a crash is surfaced as `none`. -/
def parseSpacingNum (spacing : Spacing) (rng : Rng) (k : ℕ) :
    Option (ℚ × ℕ) :=
  match parseSpacing spacing rng k with
  | (some (.num n), k') => some (n, k')
  | (some (.str _), _) => none
  | (none, _) => none

/-- `shrinkPositionByChild`: advance the trailing edge of the position past
the child plus one resolved spacing.  The `default` branch of the switch
(an absent direction) leaves the position untouched and, notably, never
calls `parseSpacing`. -/
def shrinkPositionByChild (position : Command) (child : ChoiceBox)
    (direction : Option Direction) (spacing : Spacing) (rng : Rng) (k : ℕ) :
    Option (Command × ℕ) :=
  match direction with
  | none => some (position, k)
  | some .top =>
    (parseSpacingNum spacing rng k).map fun (s, k') =>
      ({ position with bottom := child.top + s }, k')
  | some .right =>
    (parseSpacingNum spacing rng k).map fun (s, k') =>
      ({ position with left := child.right + s }, k')
  | some .bottom =>
    (parseSpacingNum spacing rng k).map fun (s, k') =>
      ({ position with top := child.bottom - s }, k')
  | some .left =>
    (parseSpacingNum spacing rng k).map fun (s, k') =>
      ({ position with right := child.left - s }, k')

/-- `movePositionBySpacing`: translate the whole position by one resolved
spacing along the given direction (the source throws on an unknown
direction; the closed `Direction` type leaves only the four real cases). -/
def movePositionBySpacing (position : Command) (direction : Direction)
    (spacing : Spacing) (rng : Rng) (k : ℕ) : Option (Command × ℕ) :=
  (parseSpacingNum spacing rng k).map fun (s, k') =>
    match direction with
    | .top => ({ position with top := position.top + s, bottom := position.bottom + s }, k')
    | .right => ({ position with left := position.left + s, right := position.right + s }, k')
    | .bottom => ({ position with top := position.top - s, bottom := position.bottom - s }, k')
    | .left => ({ position with left := position.left - s, right := position.right - s }, k')

/-! General utilities (`objectCopy`, `objectMerge`). -/

/-- `objectCopy`: a shallow copy of every own key.  On a `Command` value
this reproduces every field; the aliasing consequences of copying are
modelled separately by the store-based driver below. -/
def objectCopy (original : Command) : Command :=
  { top := original.top, right := original.right, bottom := original.bottom,
    left := original.left, width := original.width, height := original.height,
    title := original.title }

/-- `objectMerge(primary, secondary)`: copy `primary`, then add each key of
`secondary` that the copy does not already own.  In `generateChildren` the
primary is the schema and the secondary is the position, so the schema's
own keys — `width` and `height` (and `contents`, which no downstream reader
consults and is not carried on `Command`) — take precedence, while the
secondary contributes the four edges and any `title`. -/
def objectMerge (primary : Possibility) (secondary : Command) : Command :=
  { width := some primary.width, height := some primary.height,
    top := secondary.top, right := secondary.right,
    bottom := secondary.bottom, left := secondary.left,
    title := secondary.title }

/-! The choice parser (`parseChoice`, `parseChoiceFinal` and the helpers
`ensureSizingOnChoice` / `ensureDirectionBoundsOnChoice`; the latter is the
explicit edge initialisation inside `parseChoice` here). -/

/-- The `arguments` resolution inside `parseChoice`: a weighted list is
collapsed by `chooseAmong` into the chosen entry's `values`; anything else
is passed through.  When `chooseAmong` yields `undefined` the source
dereferences `.values` of `undefined` (a `TypeError`), modelled as `none`. -/
def resolveArguments (args : Option ChoiceArgs) (rng : Rng) (k : ℕ) :
    Option (Option ChoiceArgs × ℕ) :=
  match args with
  | none => some (none, k)
  | some (.val m) => some (some (.val m), k)
  | some (.weighted l) =>
    match chooseAmong (·.percent) l rng k with
    | (some o, k') => some (some (.val o.values), k')
    | (none, _) => none

/-- `ensureSizingOnChoice`: each dimension comes from `choice.sizing` when
that key is defined there, otherwise from the schema. -/
def ensureSizingOnChoice (choice : PossibilityChild) (schema : Possibility) :
    ℚ × ℚ :=
  ((choice.sizing.bind (·.width)).getD schema.width,
   (choice.sizing.bind (·.height)).getD schema.height)

/-- The collapse step
`output[direction] = output[directionOpposites[direction]] +
output[directionSizing[direction]]`.  An absent direction indexes the
object with `"undefined"`, leaving every edge unchanged.  (`parseChoice`
always sets `width`/`height` before this step, so the `getD 0` defaults are
never exercised.) -/
def collapseAlongDirection (b : ChoiceBox) : Option Direction → ChoiceBox
  | none => b
  | some .top => { b with top := b.bottom + b.height.getD 0 }
  | some .right => { b with right := b.left + b.width.getD 0 }
  | some .bottom => { b with bottom := b.top + b.height.getD 0 }
  | some .left => { b with left := b.right + b.width.getD 0 }

/-- The `switch (schema.contents.snap)` re-alignment step of
`parseChoice`. -/
def applySnapOnChoice (b : ChoiceBox) : Option Direction → ChoiceBox
  | some .top => { b with bottom := b.top - b.height.getD 0 }
  | some .right => { b with left := b.right - b.width.getD 0 }
  | some .bottom => { b with top := b.bottom + b.height.getD 0 }
  | some .left => { b with right := b.left + b.width.getD 0 }
  | none => b

/-- JS property assignment `arguments[key] = v` on a resolved argument map.
(After `resolveArguments`, `arguments` is always a plain map; the weighted
branch is unreachable and left unchanged.) -/
def setArgument (a : ChoiceArgs) (key : String) (v : ℚ) : ChoiceArgs :=
  match a with
  | .val m => .val ((m.filter fun p => p.1 ≠ key) ++ [(key, v)])
  | .weighted l => .weighted l

/-- The `if (choice.stretch)` step of `parseChoice`: materialise
`arguments` when absent, then expand the box to fill the host horizontally
and/or vertically, mirroring the new dimension into `arguments`. -/
def applyStretchOnChoice (b : ChoiceBox) (stretch : Option StretchSpec)
    (position : Command) : ChoiceBox :=
  match stretch with
  | none => b
  | some st =>
    let args0 := match b.arguments with
      | none => ChoiceArgs.val []
      | some a => a
    let b1 := { b with arguments := some args0 }
    let b2 :=
      if st.width then
        { b1 with
          left := position.left
          right := position.right
          width := some (position.right - position.left)
          arguments := some (setArgument args0 "width"
            (position.right - position.left)) }
      else b1
    if st.height then
      { b2 with
        top := position.top
        bottom := position.bottom
        height := some (position.top - position.bottom)
        arguments := some (setArgument (b2.arguments.getD (ChoiceArgs.val []))
          "height" (position.top - position.bottom)) }
    else b2

/-- `parseChoice`: build the output box with resolved `arguments`, sizing
from `ensureSizingOnChoice`, all four edges initially the host's
(`ensureDirectionBoundsOnChoice`), then the collapse step along the layout
direction, the `snap` re-alignment, and the `stretch` expansion.  `schema`
is the already-looked-up `possibilities[choice.title]`. -/
def parseChoice (schema : Possibility) (choice : PossibilityChild)
    (position : Command) (direction : Option Direction) (rng : Rng) (k : ℕ) :
    Option (ChoiceBox × ℕ) :=
  match resolveArguments choice.arguments rng k with
  | none => none
  | some (args, k1) =>
    let sizes := ensureSizingOnChoice choice schema
    let b0 : ChoiceBox :=
      { title := some choice.title, type := some choice.type,
        arguments := args, width := some sizes.1, height := some sizes.2,
        top := position.top, right := position.right,
        bottom := position.bottom, left := position.left }
    let b1 := collapseAlongDirection b0 direction
    let b2 := applySnapOnChoice b1 schema.contents.snap
    some (applyStretchOnChoice b2 choice.stretch position, k1)

/-- `parseChoiceFinal`: a Known box whose edges are exactly the host's and
whose dimensions come from the `source` schema (here already looked up as
`sourceSchema = possibilities[choice.source]`); `arguments` are passed
through unresolved. -/
def parseChoiceFinal (sourceSchema : Possibility) (choice : PossibilityChild)
    (position : Command) : ChoiceBox :=
  { title := some choice.title, type := some ChildType.Known,
    arguments := choice.arguments, width := some sourceSchema.width,
    height := some sourceSchema.height, top := position.top,
    right := position.right, bottom := position.bottom, left := position.left }

/-! Bounding-box aggregation (`wrapChoicePositionExtremes`). -/

/-- The body of the extremes loop: widen the accumulated box by one child
(`Math.max` on `top`/`right`, `Math.min` on `bottom`/`left`). -/
def wrapExtremesStep (b : ChoiceBox) (c : Choice) : ChoiceBox :=
  { b with top := max b.top c.top, right := max b.right c.right,
           bottom := min b.bottom c.bottom, left := min b.left c.left }

/-- `wrapChoicePositionExtremes`: `undefined` for a missing or empty list;
for a single child, a box carrying that child's four edges (with `title`,
`width` and `height` left `undefined`) and the list as `children`;
otherwise fold `wrapExtremesStep` over the remaining children and recompute
`width` and `height` from the final edges.  (The source's early return when
a child is an empty object has no counterpart here: every `Choice` value
carries its keys.) -/
def wrapChoicePositionExtremes (children : Option (List Choice)) :
    Option Choice :=
  match children with
  | none => none
  | some [] => none
  | some [child] =>
    some (.node { title := none, top := child.top, right := child.right,
                  bottom := child.bottom, left := child.left,
                  width := none, height := none } none (some [child]))
  | some (child :: rest) =>
    let box := rest.foldl wrapExtremesStep
      { title := none, top := child.top, right := child.right,
        bottom := child.bottom, left := child.left,
        width := none, height := none }
    some (.node { box with width := some (box.right - box.left),
                           height := some (box.top - box.bottom) }
      none (some (child :: rest)))

/-! The four mode generators.  Each takes the (already merged) position and
threads it together with the rng cursor; `gen` is the recursive entry into
`generate` at one level less fuel. -/

/-- JS truthiness of `contents.limit` (`contents.limit && ...`): defined
and non-zero. -/
def limitTruthy : Option ℚ → Bool
  | none => false
  | some q => decide (¬q = 0)

/-- The loop body of `generateCertain`: iterate the children once in
order.  A `Final` child is materialised by `parseChoiceFinal` and — unlike
every other child — does not shrink the position.  Other children are
parsed, non-Known ones get `contents` from a recursive `generate` against
the current position, and the position is shrunk.  (The trailing
`filter(child !== undefined)` of the source is a no-op: `parseChoice`
always returns an object.) -/
def generateCertainGo (gen : Option String → Command → ℕ → Res (Option Choice × ℕ))
    (lib : Library) (direction : Option Direction) (spacing : Spacing)
    (rng : Rng) :
    List PossibilityChild → Command → ℕ → Res (List Choice × Command × ℕ)
  | [], position, k => .ok ([], position, k)
  | choice :: rest, position, k =>
    if choice.type = ChildType.Final then
      match choice.source.bind lib with
      | none => .err "TypeError: possibilities[choice.source] is undefined"
      | some src =>
        let child := Choice.node (parseChoiceFinal src choice position) none none
        match generateCertainGo gen lib direction spacing rng rest position k with
        | .ok (cs, p, kf) => .ok (child :: cs, p, kf)
        | .err m => .err m
        | .ranOut => .ranOut
    else
      match lib choice.title with
      | none => .err "TypeError: possibilities[choice.title] is undefined"
      | some schema =>
        match parseChoice schema choice position direction rng k with
        | none => .err "TypeError: chooseAmong(choice.arguments) is undefined"
        | some (box, k1) =>
          let recRes : Res (Option Choice × ℕ) :=
            if choice.type = ChildType.Known then .ok (none, k1)
            else gen (some choice.title) position k1
          match recRes with
          | .err m => .err m
          | .ranOut => .ranOut
          | .ok (childContents, k2) =>
            let child := Choice.node box childContents none
            match shrinkPositionByChild position box direction spacing rng k2 with
            | none => .err "non-numeric spacing resolution"
            | some (position', k3) =>
              match generateCertainGo gen lib direction spacing rng rest position' k3 with
              | .ok (cs, p, kf) => .ok (child :: cs, p, kf)
              | .err m => .err m
              | .ranOut => .ranOut

/-- The `while` loop of `generateRepeat`: run through the children with a
wrapping index while the position is not empty; parse each child (`Final`
via `parseChoiceFinal`, others via `parseChoice` plus a recursive
`generate` for non-Known types); a child that fits is packed and appended,
the first that does not ends the loop. -/
def generateRepeatGo (gen : Option String → Command → ℕ → Res (Option Choice × ℕ))
    (lib : Library) (children : List PossibilityChild)
    (direction : Option Direction) (spacing : Spacing) (rng : Rng) :
    ℕ → ℕ → Command → ℕ → Res (List Choice × Command × ℕ)
  | 0, _, _, _ => .ranOut
  | fuel + 1, i, position, k =>
    if positionIsNotEmpty position direction then
      match children.get? i with
      | none => .err "TypeError: choices[i] is undefined"
      | some choice =>
        let parsed : Res (ChoiceBox × Option Choice × ℕ) :=
          if choice.type = ChildType.Final then
            match choice.source.bind lib with
            | none => .err "TypeError: possibilities[choice.source] is undefined"
            | some src => .ok (parseChoiceFinal src choice position, none, k)
          else
            match lib choice.title with
            | none => .err "TypeError: possibilities[choice.title] is undefined"
            | some schema =>
              match parseChoice schema choice position direction rng k with
              | none => .err "TypeError: chooseAmong(choice.arguments) is undefined"
              | some (box, k1) =>
                if choice.type = ChildType.Known then .ok (box, none, k1)
                else
                  match gen (some choice.title) position k1 with
                  | .ok (childContents, k2) => .ok (box, childContents, k2)
                  | .err m => .err m
                  | .ranOut => .ranOut
        match parsed with
        | .err m => .err m
        | .ranOut => .ranOut
        | .ok (box, childContents, k2) =>
          if choiceFitsPosition box position then
            match shrinkPositionByChild position box direction spacing rng k2 with
            | none => .err "non-numeric spacing resolution"
            | some (position', k3) =>
              let i' := if i + 1 ≥ children.length then 0 else i + 1
              match generateRepeatGo gen lib children direction spacing rng fuel i' position' k3 with
              | .ok (cs, p, kf) => .ok (Choice.node box childContents none :: cs, p, kf)
              | .err m => .err m
              | .ranOut => .ranOut
          else
            .ok ([], position, k2)
    else
      .ok ([], position, k)

/-- `generateChild`: `chooseAmongPosition` then `parseChoice` of the chosen
child (whose title is guaranteed present by the fit filter). -/
def generateChild (lib : Library) (contents : PossibilityContents)
    (position : Command) (direction : Option Direction) (rng : Rng) (k : ℕ) :
    Res (Option ChoiceBox × ℕ) :=
  match chooseAmongPosition lib contents.children position rng k with
  | .err m => .err m
  | .ranOut => .ranOut
  | .ok (none, k') => .ok (none, k')
  | .ok (some choice, k') =>
    match lib choice.title with
    | none => .err "TypeError: possibilities[choice.title] is undefined"
    | some schema =>
      match parseChoice schema choice position direction rng k' with
      | none => .err "TypeError: chooseAmong(choice.arguments) is undefined"
      | some (box, k'') => .ok (some box, k'')

/-- The `while` loop of `generateRandom`: while the position is not empty,
draw a fitting child (`generateChild`); no child ends the loop normally;
otherwise shrink, append, and — when `contents.limit` is truthy and the
accumulated count now exceeds it — abort the whole branch by returning
`undefined` (`ok (none, …)`) instead of the partial list. -/
def generateRandomGo (lib : Library) (contents : PossibilityContents)
    (direction : Option Direction) (spacing : Spacing) (rng : Rng) :
    ℕ → List Choice → Command → ℕ →
    Res (Option (List Choice) × Command × ℕ)
  | 0, _, _, _ => .ranOut
  | fuel + 1, acc, position, k =>
    if positionIsNotEmpty position direction then
      match generateChild lib contents position direction rng k with
      | .err m => .err m
      | .ranOut => .ranOut
      | .ok (none, k') => .ok (some acc, position, k')
      | .ok (some box, k') =>
        match shrinkPositionByChild position box direction spacing rng k' with
        | none => .err "non-numeric spacing resolution"
        | some (position', k2) =>
          let acc' := acc ++ [Choice.node box none none]
          if limitTruthy contents.limit ∧ (acc'.length : ℚ) > contents.limit.getD 0 then
            .ok (none, position', k2)
          else
            generateRandomGo lib contents direction spacing rng fuel acc' position' k2
    else
      .ok (some acc, position, k)

/-- The `map` of `generateMultiple`: each child is parsed against a copy of
the position, and when a direction is given the shared position is then
translated by the spacing. -/
def generateMultipleGo (lib : Library) (direction : Option Direction)
    (spacing : Spacing) (rng : Rng) :
    List PossibilityChild → Command → ℕ → Res (List Choice × Command × ℕ)
  | [], position, k => .ok ([], position, k)
  | choice :: rest, position, k =>
    match lib choice.title with
    | none => .err "TypeError: possibilities[choice.title] is undefined"
    | some schema =>
      match parseChoice schema choice (objectCopy position) direction rng k with
      | none => .err "TypeError: chooseAmong(choice.arguments) is undefined"
      | some (box, k1) =>
        let step : Option (Command × ℕ) :=
          match direction with
          | none => some (position, k1)
          | some d => movePositionBySpacing position d spacing rng k1
        match step with
        | none => .err "non-numeric spacing resolution"
        | some (position', k2) =>
          match generateMultipleGo lib direction spacing rng rest position' k2 with
          | .ok (cs, p, kf) => .ok (Choice.node box none none :: cs, p, kf)
          | .err m => .err m
          | .ranOut => .ranOut

/-! The recursive driver (`generateChildren`, `generate`, `generateFull`). -/

/-- The direction resolution `contents.direction || direction`: the
contents' own direction wins, the caller's hint is the fallback. -/
def resolveDirection (contentsDirection direction : Option Direction) :
    Option Direction :=
  match contentsDirection with
  | some d => some d
  | none => direction

/-- `generateChildren`: read the contents, default the spacing to `0`,
merge the schema over the position (`objectMerge(schema, position)` —
schema precedence), resolve the direction (`contents.direction ||
direction`), dispatch on the mode, and wrap the produced children in one
aggregate Choice. -/
def generateChildren (gen : Option String → Command → ℕ → Res (Option Choice × ℕ))
    (loopFuel : ℕ) (lib : Library) (schema : Possibility) (position : Command)
    (direction : Option Direction) (rng : Rng) (k : ℕ) :
    Res (Option Choice × ℕ) :=
  let contents := schema.contents
  let spacing := contents.spacing.getD (.num 0)
  let objectMerged := objectMerge schema position
  let dir := resolveDirection contents.direction direction
  let result : Res (Option (List Choice) × Command × ℕ) :=
    match contents.mode with
    | .Random => generateRandomGo lib contents dir spacing rng loopFuel [] objectMerged k
    | .Certain =>
      match generateCertainGo gen lib dir spacing rng contents.children objectMerged k with
      | .ok (cs, p, kf) => .ok (some cs, p, kf)
      | .err m => .err m
      | .ranOut => .ranOut
    | .Repeat =>
      match generateRepeatGo gen lib contents.children dir spacing rng loopFuel 0 objectMerged k with
      | .ok (cs, p, kf) => .ok (some cs, p, kf)
      | .err m => .err m
      | .ranOut => .ranOut
    | .Multiple =>
      match generateMultipleGo lib dir spacing rng contents.children objectMerged k with
      | .ok (cs, p, kf) => .ok (some cs, p, kf)
      | .err m => .err m
      | .ranOut => .ranOut
  match result with
  | .ok (cs, _, kf) => .ok (wrapChoicePositionExtremes cs, kf)
  | .err m => .err m
  | .ranOut => .ranOut

/-- `generate(name, command)`: look the schema up (throwing when absent),
shallow-copy the command, and hand both to `generateChildren`.  The fuel
bounds the recursion depth and the iteration count of the packing loops. -/
def generate : ℕ → Library → Option String → Command → Rng → ℕ →
    Res (Option Choice × ℕ)
  | 0, _, _, _, _, _ => .ranOut
  | fuel + 1, lib, name, command, rng, k =>
    match name.bind lib with
    | none => .err "No possibility exists under the given name"
    | some schema =>
      generateChildren (fun n c k' => generate fuel lib n c rng k') fuel lib
        schema (objectCopy command) none rng k

/-- The conversion of a produced child Choice back into the command handed
to a recursive `generateFull` call (the child carries its own title, edges
and dimensions). -/
def choiceToCommand (c : Choice) : Command :=
  { top := c.top, right := c.right, bottom := c.bottom, left := c.left,
    width := c.box.width, height := c.box.height, title := c.box.title }

/-- The loop of `generateFull` over the aggregate's children: Known
children are appended to the command buffer, Random children are recursed
upon, anything else throws. -/
def generateFullGo (gfull : Command → ℕ → List Choice → Res (List Choice × ℕ)) :
    List Choice → List Choice → ℕ → Res (List Choice × ℕ)
  | [], buffer, k => .ok (buffer, k)
  | child :: rest, buffer, k =>
    match child.box.type with
    | some .Known => generateFullGo gfull rest (buffer ++ [child]) k
    | some .Random =>
      match gfull (choiceToCommand child) k buffer with
      | .ok (buffer', k') => generateFullGo gfull rest buffer' k'
      | .err m => .err m
      | .ranOut => .ranOut
    | _ => .err "Unknown child type"

/-- `generateFull(schema)`: run `generate(schema.title, schema)` and fold
the resulting children into the command buffer, recursing on Random
children.  The buffer is threaded explicitly (the source accumulates into
`this.generatedCommands`, reset by `clearGeneratedCommands`). -/
def generateFull : ℕ → Library → Command → Rng → ℕ → List Choice →
    Res (List Choice × ℕ)
  | 0, _, _, _, _, _ => .ranOut
  | fuel + 1, lib, command, rng, k, buffer =>
    match generate (fuel + 1) lib command.title command rng k with
    | .err m => .err m
    | .ranOut => .ranOut
    | .ok (none, k') => .ok (buffer, k')
    | .ok (some generated, k') =>
      match generated.children with
      | none => .ok (buffer, k')
      | some cs =>
        generateFullGo (fun c kk b => generateFull fuel lib c rng kk b) cs buffer k'

/-! A store-passing rendition of the driver.  The pure driver above models
JS objects as immutable values, which silently erases the source's
in-place mutation of position objects.  To reason about aliasing — which
object `shrinkPositionByChild` writes through, and that the caller's
`command` argument is never written — the same control flow is repeated
here over an explicit object store: `Store` is the list of allocated
position/command objects, an object reference is an index, `objectCopy`
and `objectMerge` allocate fresh objects by appending, and every in-place
write is a `List.set` at the written object's index. -/

/-- The heap of allocated position/command objects. -/
abbrev Store := List Command

/-- Dereference an object: reading an unallocated reference models a JS
`undefined` dereference and never occurs in the runs below. -/
def storeRead (store : Store) (r : ℕ) : Command :=
  (store.get? r).getD { top := 0, right := 0, bottom := 0, left := 0 }

/-- Store-passing `generateCertain` loop: identical control flow to
`generateCertainGo`, with the merged position read through its reference
`m` before every use and `shrinkPositionByChild` writing back through `m`.
The recursive `generate` for a non-Known child receives the reference `m`
itself as its command argument, exactly as the source passes the mutable
`position` object. -/
def sGenerateCertainGo
    (sGen : Option String → ℕ → Store → ℕ → Res (Option Choice × ℕ) × Store)
    (lib : Library) (direction : Option Direction) (spacing : Spacing)
    (rng : Rng) :
    List PossibilityChild → ℕ → Store → ℕ → Res (List Choice × ℕ) × Store
  | [], _, store, k => (.ok ([], k), store)
  | choice :: rest, m, store, k =>
    if choice.type = ChildType.Final then
      match choice.source.bind lib with
      | none => (.err "TypeError: possibilities[choice.source] is undefined", store)
      | some src =>
        let child := Choice.node (parseChoiceFinal src choice (storeRead store m)) none none
        match sGenerateCertainGo sGen lib direction spacing rng rest m store k with
        | (.ok (cs, kf), sf) => (.ok (child :: cs, kf), sf)
        | other => other
    else
      match lib choice.title with
      | none => (.err "TypeError: possibilities[choice.title] is undefined", store)
      | some schema =>
        match parseChoice schema choice (storeRead store m) direction rng k with
        | none => (.err "TypeError: chooseAmong(choice.arguments) is undefined", store)
        | some (box, k1) =>
          let stepRec : Res (Option Choice × ℕ) × Store :=
            if choice.type = ChildType.Known then (.ok (none, k1), store)
            else sGen (some choice.title) m store k1
          match stepRec with
          | (.err msg, s1) => (.err msg, s1)
          | (.ranOut, s1) => (.ranOut, s1)
          | (.ok (childContents, k2), s1) =>
            let child := Choice.node box childContents none
            match shrinkPositionByChild (storeRead s1 m) box direction spacing rng k2 with
            | none => (.err "non-numeric spacing resolution", s1)
            | some (p', k3) =>
              match sGenerateCertainGo sGen lib direction spacing rng rest m (s1.set m p') k3 with
              | (.ok (cs, kf), sf) => (.ok (child :: cs, kf), sf)
              | other => other

/-- Store-passing `generateRepeat` loop. -/
def sGenerateRepeatGo
    (sGen : Option String → ℕ → Store → ℕ → Res (Option Choice × ℕ) × Store)
    (lib : Library) (children : List PossibilityChild)
    (direction : Option Direction) (spacing : Spacing) (rng : Rng) :
    ℕ → ℕ → ℕ → Store → ℕ → Res (List Choice × ℕ) × Store
  | 0, _, _, store, _ => (.ranOut, store)
  | fuel + 1, i, m, store, k =>
    if positionIsNotEmpty (storeRead store m) direction then
      match children.get? i with
      | none => (.err "TypeError: choices[i] is undefined", store)
      | some choice =>
        let parsed : Res (ChoiceBox × Option Choice × ℕ) × Store :=
          if choice.type = ChildType.Final then
            match choice.source.bind lib with
            | none => (.err "TypeError: possibilities[choice.source] is undefined", store)
            | some src => (.ok (parseChoiceFinal src choice (storeRead store m), none, k), store)
          else
            match lib choice.title with
            | none => (.err "TypeError: possibilities[choice.title] is undefined", store)
            | some schema =>
              match parseChoice schema choice (storeRead store m) direction rng k with
              | none => (.err "TypeError: chooseAmong(choice.arguments) is undefined", store)
              | some (box, k1) =>
                if choice.type = ChildType.Known then (.ok (box, none, k1), store)
                else
                  match sGen (some choice.title) m store k1 with
                  | (.ok (childContents, k2), s1) => (.ok (box, childContents, k2), s1)
                  | (.err msg, s1) => (.err msg, s1)
                  | (.ranOut, s1) => (.ranOut, s1)
        match parsed with
        | (.err msg, s1) => (.err msg, s1)
        | (.ranOut, s1) => (.ranOut, s1)
        | (.ok (box, childContents, k2), s1) =>
          if choiceFitsPosition box (storeRead s1 m) then
            match shrinkPositionByChild (storeRead s1 m) box direction spacing rng k2 with
            | none => (.err "non-numeric spacing resolution", s1)
            | some (p', k3) =>
              let i' := if i + 1 ≥ children.length then 0 else i + 1
              match sGenerateRepeatGo sGen lib children direction spacing rng fuel i' m (s1.set m p') k3 with
              | (.ok (cs, kf), sf) => (.ok (Choice.node box childContents none :: cs, kf), sf)
              | other => other
          else
            (.ok ([], k2), s1)
    else
      (.ok ([], k), store)

/-- Store-passing `generateRandom` loop (Random children are never
recursed into, so no `sGen` is needed). -/
def sGenerateRandomGo (lib : Library) (contents : PossibilityContents)
    (direction : Option Direction) (spacing : Spacing) (rng : Rng) :
    ℕ → List Choice → ℕ → Store → ℕ →
    Res (Option (List Choice) × ℕ) × Store
  | 0, _, _, store, _ => (.ranOut, store)
  | fuel + 1, acc, m, store, k =>
    if positionIsNotEmpty (storeRead store m) direction then
      match generateChild lib contents (storeRead store m) direction rng k with
      | .err msg => (.err msg, store)
      | .ranOut => (.ranOut, store)
      | .ok (none, k') => (.ok (some acc, k'), store)
      | .ok (some box, k') =>
        match shrinkPositionByChild (storeRead store m) box direction spacing rng k' with
        | none => (.err "non-numeric spacing resolution", store)
        | some (p', k2) =>
          let acc' := acc ++ [Choice.node box none none]
          if limitTruthy contents.limit ∧ (acc'.length : ℚ) > contents.limit.getD 0 then
            (.ok (none, k2), store.set m p')
          else
            sGenerateRandomGo lib contents direction spacing rng fuel acc' m (store.set m p') k2
    else
      (.ok (some acc, k), store)

/-- Store-passing `generateMultiple` loop: each child is parsed against a
copy of the position object (freshly allocated in the source, never
written, and therefore not added to the store) and the shared position is
translated in place. -/
def sGenerateMultipleGo (lib : Library) (direction : Option Direction)
    (spacing : Spacing) (rng : Rng) :
    List PossibilityChild → ℕ → Store → ℕ → Res (List Choice × ℕ) × Store
  | [], _, store, k => (.ok ([], k), store)
  | choice :: rest, m, store, k =>
    match lib choice.title with
    | none => (.err "TypeError: possibilities[choice.title] is undefined", store)
    | some schema =>
      match parseChoice schema choice (objectCopy (storeRead store m)) direction rng k with
      | none => (.err "TypeError: chooseAmong(choice.arguments) is undefined", store)
      | some (box, k1) =>
        let step : Option (Store × ℕ) :=
          match direction with
          | none => some (store, k1)
          | some d =>
            (movePositionBySpacing (storeRead store m) d spacing rng k1).map
              fun (p', k2) => (store.set m p', k2)
        match step with
        | none => (.err "non-numeric spacing resolution", store)
        | some (store1, k2) =>
          match sGenerateMultipleGo lib direction spacing rng rest m store1 k2 with
          | (.ok (cs, kf), sf) => (.ok (Choice.node box none none :: cs, kf), sf)
          | other => other

/-- Store-passing `generateChildren`: the merged object is a fresh
allocation (`objectMerge` returns a new object), appended at index
`store.length`; the mode generators receive that reference and write only
through it. -/
def sGenerateChildren
    (sGen : Option String → ℕ → Store → ℕ → Res (Option Choice × ℕ) × Store)
    (loopFuel : ℕ) (lib : Library) (schema : Possibility) (p : ℕ)
    (store : Store) (direction : Option Direction) (rng : Rng) (k : ℕ) :
    Res (Option Choice × ℕ) × Store :=
  let contents := schema.contents
  let spacing := contents.spacing.getD (.num 0)
  let m := store.length
  let store1 := store ++ [objectMerge schema (storeRead store p)]
  let dir := resolveDirection contents.direction direction
  let stepMode : Res (Option (List Choice) × ℕ) × Store :=
    match contents.mode with
    | .Random => sGenerateRandomGo lib contents dir spacing rng loopFuel [] m store1 k
    | .Certain =>
      match sGenerateCertainGo sGen lib dir spacing rng contents.children m store1 k with
      | (.ok (cs, kf), sf) => (.ok (some cs, kf), sf)
      | (.err msg, sf) => (.err msg, sf)
      | (.ranOut, sf) => (.ranOut, sf)
    | .Repeat =>
      match sGenerateRepeatGo sGen lib contents.children dir spacing rng loopFuel 0 m store1 k with
      | (.ok (cs, kf), sf) => (.ok (some cs, kf), sf)
      | (.err msg, sf) => (.err msg, sf)
      | (.ranOut, sf) => (.ranOut, sf)
    | .Multiple =>
      match sGenerateMultipleGo lib dir spacing rng contents.children m store1 k with
      | (.ok (cs, kf), sf) => (.ok (some cs, kf), sf)
      | (.err msg, sf) => (.err msg, sf)
      | (.ranOut, sf) => (.ranOut, sf)
  match stepMode with
  | (.ok (cs, kf), sf) => (.ok (wrapChoicePositionExtremes cs, kf), sf)
  | (.err msg, sf) => (.err msg, sf)
  | (.ranOut, sf) => (.ranOut, sf)

/-- Store-passing `generate`: read the command through its reference,
allocate the shallow copy (`objectCopy`) as a fresh object, and run
`generateChildren` on the copy's reference.  The caller's object `r` is
only ever read. -/
def sGenerate : ℕ → Library → Option String → ℕ → Store → Rng → ℕ →
    Res (Option Choice × ℕ) × Store
  | 0, _, _, _, store, _, _ => (.ranOut, store)
  | fuel + 1, lib, name, r, store, rng, k =>
    match name.bind lib with
    | none => (.err "No possibility exists under the given name", store)
    | some schema =>
      let copyIdx := store.length
      let store1 := store ++ [objectCopy (storeRead store r)]
      sGenerateChildren (fun n rr st kk => sGenerate fuel lib n rr st rng kk)
        fuel lib schema copyIdx store1 none rng k

/-! Measurements used by the packing statements: the extent of a position
along a packing direction (the dimension `directionSizing` associates with
it), the orthogonal extent, and the area. -/

/-- Extent of a position along a direction: width for left/right, height
for top/bottom. -/
def extentAlong (d : Direction) (p : Command) : ℚ :=
  match d with
  | .left | .right => p.right - p.left
  | .top | .bottom => p.top - p.bottom

/-- Extent of a position orthogonal to a direction. -/
def crossExtentAlong (d : Direction) (p : Command) : ℚ :=
  match d with
  | .left | .right => p.top - p.bottom
  | .top | .bottom => p.right - p.left

/-- Area of a position (height times width). -/
def area (p : Command) : ℚ := (p.top - p.bottom) * (p.right - p.left)

/-- Extent of a produced child's box along a direction. -/
def boxExtentAlong (d : Direction) (b : ChoiceBox) : ℚ :=
  match d with
  | .left | .right => b.right - b.left
  | .top | .bottom => b.top - b.bottom

/-- Sum of the extents of a list of produced children along a direction. -/
def sumExtentsAlong (d : Direction) (cs : List Choice) : ℚ :=
  (cs.map fun c => boxExtentAlong d c.box).sum

/-! Concrete fixtures used by counterexamples and witnesses. -/

/-- A schema with dimensions 10 × 12 (and empty Certain contents). -/
def mergeSchemaFx : Possibility :=
  { width := 10, height := 12, contents := { mode := .Certain } }

/-- A command that carries its own `width`/`height` keys, overlapping the
schema's fields. -/
def mergeCommandFx : Command :=
  { top := 8, right := 9, bottom := 0, left := 1,
    width := some 99, height := some 7, title := some "t" }

/-- The merge the specification describes for `generate`: the command — the
host Position — wins on every overlapping key, and the schema contributes
only the keys the command lacks.  Stated purely for comparison against the
source's `objectMerge`. -/
def objectMergeHostWins (schema : Possibility) (command : Command) : Command :=
  { top := command.top, right := command.right, bottom := command.bottom,
    left := command.left,
    width := some (command.width.getD schema.width),
    height := some (command.height.getD schema.height),
    title := command.title }

/-- C1 counterexample: for a command whose `width` key (99) overlaps the
schema's `width` (10), `objectMerge(schema, position)` keeps the schema's
10, not the command's 99, so the merge the claim describes (Position wins
on overlapping keys) disagrees with the source's merge at this input. -/
theorem objectMerge_hostWins_counterexample :
    objectMerge mergeSchemaFx mergeCommandFx ≠
      objectMergeHostWins mergeSchemaFx mergeCommandFx
    ∧ (objectMerge mergeSchemaFx mergeCommandFx).width = some 10
    ∧ (objectMergeHostWins mergeSchemaFx mergeCommandFx).width = some 99
    ∧ mergeCommandFx.width = some 99 ∧ mergeSchemaFx.width = 10 :=
  ⟨by decide, rfl, rfl, rfl, rfl⟩

/-- C1 amended: `generate`'s working region is `objectMerge(schema,
position)`, in which the schema — not the Position — wins on every
overlapping key (`width`, `height`); the command contributes exactly the
keys the schema does not own: the four edges and the `title`. -/
theorem objectMerge_schemaWins (schema : Possibility) (command : Command) :
    objectMerge schema command =
      { top := command.top, right := command.right, bottom := command.bottom,
        left := command.left, width := some schema.width,
        height := some schema.height, title := command.title } := rfl

/-- C8 amended: an unrecognised (truthy) spacing value is not rejected:
`parseSpacing` falls into the switch's `default` branch (commented "Case:
Number" in the source) and returns the value unchanged, raising no error of
any kind and consuming no randomness. -/
theorem parseSpacing_unrecognized_passthrough (s : String) (hs : s ≠ "")
    (rng : Rng) (k : ℕ) :
    parseSpacing (Spacing.other s) rng k = (some (SpacingOutcome.str s), k) := by
  unfold parseSpacing spacingFalsy
  simp [hs]

/-- C8 counterexample: resolving the concrete unrecognised spacing value
"7px" succeeds and hands the value back unchanged; no `MalformedSchema` (or
any other) failure occurs. -/
theorem parseSpacing_no_error_counterexample :
    parseSpacing (Spacing.other "7px") (fun _ => 0) 0 =
      (some (SpacingOutcome.str "7px"), 0) := by decide

theorem parseSpacing_unrecognized_passthrough_witness :
    "px" ≠ "" ∧
      parseSpacing (Spacing.other "px") (fun _ => 0) 3 =
        (some (SpacingOutcome.str "px"), 3) :=
  ⟨by decide, parseSpacing_unrecognized_passthrough "px" (by decide) (fun _ => 0) 3⟩

/-- A 5 × 5 schema with snap-free, empty Certain contents. -/
def cexSchema : Possibility :=
  { width := 5, height := 5, contents := { mode := .Certain } }

/-- A plain Known choice with no sizing, stretch or arguments. -/
def cexChoice : PossibilityChild := { title := "x", type := .Known }

/-- A 10 × 10 host position. -/
def cexHost : Command := { top := 10, right := 10, bottom := 0, left := 0 }

/-- The box `parseChoice` produces from the fixtures above along direction
top. -/
def boundsBoxFx : ChoiceBox :=
  { title := some "x", type := some ChildType.Known, width := some 5,
    height := some 5, top := 5, right := 10, bottom := 0, left := 0 }

/-- C2 counterexample: parsing the 5 × 5 choice against the 10 × 10 host
along direction bottom puts the moving edge outside the host —
`output.bottom = output.top + output.height = 15` — so the parsed Choice
has `bottom = 15 > top = 10`, violating both `bottom ≤ top` and
`bottom ≤ H.top`. -/
theorem parseChoice_bottom_counterexample :
    ((parseChoice cexSchema cexChoice cexHost (some Direction.bottom)
        (fun _ => 0) 0).map fun p => (p.1.top, p.1.bottom)) = some (10, 15)
    ∧ cexHost.top = 10 ∧ ¬((15 : ℚ) ≤ 10) := by
  refine ⟨?_, rfl, by norm_num⟩
  simp [parseChoice, resolveArguments, cexChoice, cexSchema, cexHost,
    ensureSizingOnChoice, collapseAlongDirection, applySnapOnChoice,
    applyStretchOnChoice] <;> norm_num

/-- The `snap` re-alignment never moves the box out of the host: a box
whose `left`/`bottom` sit on the host's own and whose `right`/`top` lie
between the matching host edge plus the box's dimension and the host's far
edge (which is what the collapse step produces for directions top, right
and undefined) stays inside the host under every snap case. -/
theorem applySnapOnChoice_bounds (H : Command) (b : ChoiceBox)
    (snap : Option Direction) (w h : ℚ)
    (hw : 0 ≤ w) (hh : 0 ≤ h)
    (hbw : b.width = some w) (hbh : b.height = some h)
    (hbl : b.left = H.left) (hbb : b.bottom = H.bottom)
    (hbr1 : H.left + w ≤ b.right) (hbr2 : b.right ≤ H.right)
    (hbt1 : H.bottom + h ≤ b.top) (hbt2 : b.top ≤ H.top) :
    H.left ≤ (applySnapOnChoice b snap).left
    ∧ (applySnapOnChoice b snap).left ≤ (applySnapOnChoice b snap).right
    ∧ (applySnapOnChoice b snap).right ≤ H.right
    ∧ H.bottom ≤ (applySnapOnChoice b snap).bottom
    ∧ (applySnapOnChoice b snap).bottom ≤ (applySnapOnChoice b snap).top
    ∧ (applySnapOnChoice b snap).top ≤ H.top := by
  cases snap with
  | none =>
    dsimp only [applySnapOnChoice]
    refine ⟨?_, ?_, ?_, ?_, ?_, ?_⟩ <;> linarith
  | some sd =>
    cases sd <;>
      (simp only [applySnapOnChoice, hbw, hbh, Option.getD_some]
       refine ⟨?_, ?_, ?_, ?_, ?_, ?_⟩ <;> linarith)

/-- The `stretch` expansion only ever moves edges onto the host's own
edges, so a box inside the host stays inside the host. -/
theorem applyStretchOnChoice_bounds (H : Command) (b : ChoiceBox)
    (stretch : Option StretchSpec)
    (hH1 : H.left ≤ H.right) (hH2 : H.bottom ≤ H.top)
    (h1 : H.left ≤ b.left) (h2 : b.left ≤ b.right) (h3 : b.right ≤ H.right)
    (h4 : H.bottom ≤ b.bottom) (h5 : b.bottom ≤ b.top) (h6 : b.top ≤ H.top) :
    H.left ≤ (applyStretchOnChoice b stretch H).left
    ∧ (applyStretchOnChoice b stretch H).left ≤
        (applyStretchOnChoice b stretch H).right
    ∧ (applyStretchOnChoice b stretch H).right ≤ H.right
    ∧ H.bottom ≤ (applyStretchOnChoice b stretch H).bottom
    ∧ (applyStretchOnChoice b stretch H).bottom ≤
        (applyStretchOnChoice b stretch H).top
    ∧ (applyStretchOnChoice b stretch H).top ≤ H.top := by
  cases stretch with
  | none => exact ⟨h1, h2, h3, h4, h5, h6⟩
  | some st =>
    dsimp only [applyStretchOnChoice]
    by_cases hsw : st.width <;> by_cases hsh : st.height <;>
      simp only [hsw, hsh, if_true, if_false, Bool.false_eq_true,
        ite_true, ite_false] <;>
      refine ⟨?_, ?_, ?_, ?_, ?_, ?_⟩ <;> linarith

/-- C2 amended: for every layout direction other than bottom and left —
including an undefined direction — and for every `snap` and `stretch`,
when the host is ordered and the resolved width and height are
non-negative and fit the host, the parsed Choice satisfies
`H.left ≤ left ≤ right ≤ H.right` and `H.bottom ≤ bottom ≤ top ≤ H.top`
at the moment of parsing.  (For directions bottom and left the collapse
step writes the moving edge outside the host, see the counterexample.) -/
theorem parseChoice_hostBounds
    (schema : Possibility) (choice : PossibilityChild) (H : Command)
    (d : Option Direction) (rng : Rng) (k : ℕ) (box : ChoiceBox) (k' : ℕ)
    (hd : d ≠ some Direction.bottom ∧ d ≠ some Direction.left)
    (hH : H.left ≤ H.right ∧ H.bottom ≤ H.top)
    (hw : 0 ≤ (ensureSizingOnChoice choice schema).1 ∧
      (ensureSizingOnChoice choice schema).1 ≤ H.right - H.left)
    (hh : 0 ≤ (ensureSizingOnChoice choice schema).2 ∧
      (ensureSizingOnChoice choice schema).2 ≤ H.top - H.bottom)
    (hparse : parseChoice schema choice H d rng k = some (box, k')) :
    H.left ≤ box.left ∧ box.left ≤ box.right ∧ box.right ≤ H.right ∧
    H.bottom ≤ box.bottom ∧ box.bottom ≤ box.top ∧ box.top ≤ H.top := by
  obtain ⟨hd1, hd2⟩ := hd
  obtain ⟨hH1, hH2⟩ := hH
  obtain ⟨hw1, hw2⟩ := hw
  obtain ⟨hh1, hh2⟩ := hh
  unfold parseChoice at hparse
  cases hra : resolveArguments choice.arguments rng k with
  | none => rw [hra] at hparse; exact absurd hparse (by simp)
  | some v =>
    obtain ⟨args, k1⟩ := v
    rw [hra] at hparse
    simp only [Option.some.injEq, Prod.mk.injEq] at hparse
    obtain ⟨hbox, -⟩ := hparse
    rw [← hbox]
    have key : ∀ b1 : ChoiceBox,
        b1.width = some (ensureSizingOnChoice choice schema).1 →
        b1.height = some (ensureSizingOnChoice choice schema).2 →
        b1.left = H.left → b1.bottom = H.bottom →
        H.left + (ensureSizingOnChoice choice schema).1 ≤ b1.right →
        b1.right ≤ H.right →
        H.bottom + (ensureSizingOnChoice choice schema).2 ≤ b1.top →
        b1.top ≤ H.top →
        H.left ≤ (applyStretchOnChoice (applySnapOnChoice b1
            schema.contents.snap) choice.stretch H).left
        ∧ (applyStretchOnChoice (applySnapOnChoice b1
            schema.contents.snap) choice.stretch H).left ≤
          (applyStretchOnChoice (applySnapOnChoice b1
            schema.contents.snap) choice.stretch H).right
        ∧ (applyStretchOnChoice (applySnapOnChoice b1
            schema.contents.snap) choice.stretch H).right ≤ H.right
        ∧ H.bottom ≤ (applyStretchOnChoice (applySnapOnChoice b1
            schema.contents.snap) choice.stretch H).bottom
        ∧ (applyStretchOnChoice (applySnapOnChoice b1
            schema.contents.snap) choice.stretch H).bottom ≤
          (applyStretchOnChoice (applySnapOnChoice b1
            schema.contents.snap) choice.stretch H).top
        ∧ (applyStretchOnChoice (applySnapOnChoice b1
            schema.contents.snap) choice.stretch H).top ≤ H.top := by
      intro b1 a1 a2 a3 a4 a5 a6 a7 a8
      obtain ⟨g1, g2, g3, g4, g5, g6⟩ :=
        applySnapOnChoice_bounds H b1 schema.contents.snap _ _ hw1 hh1
          a1 a2 a3 a4 a5 a6 a7 a8
      exact applyStretchOnChoice_bounds H _ choice.stretch hH1 hH2
        g1 g2 g3 g4 g5 g6
    cases d with
    | none =>
      apply key <;>
        first
          | rfl
          | (simp only [collapseAlongDirection, Option.getD_some]; linarith)
    | some dd =>
      cases dd with
      | top =>
        apply key <;>
          first
            | rfl
            | (simp only [collapseAlongDirection, Option.getD_some]; linarith)
      | right =>
        apply key <;>
          first
            | rfl
            | (simp only [collapseAlongDirection, Option.getD_some]; linarith)
      | bottom => exact absurd rfl hd1
      | left => exact absurd rfl hd2

theorem parseChoice_hostBounds_witness :
    ((some Direction.top ≠ some Direction.bottom) ∧
      (some Direction.top ≠ some Direction.left)) ∧
    (cexHost.left ≤ boundsBoxFx.left ∧ boundsBoxFx.left ≤ boundsBoxFx.right ∧
      boundsBoxFx.right ≤ cexHost.right ∧ cexHost.bottom ≤ boundsBoxFx.bottom ∧
      boundsBoxFx.bottom ≤ boundsBoxFx.top ∧ boundsBoxFx.top ≤ cexHost.top) :=
  ⟨⟨by decide, by decide⟩,
    parseChoice_hostBounds cexSchema cexChoice cexHost (some Direction.top)
      (fun _ => 0) 0 boundsBoxFx 0 ⟨by decide, by decide⟩
      ⟨by norm_num [cexHost], by norm_num [cexHost]⟩
      ⟨by norm_num [ensureSizingOnChoice, cexChoice, cexSchema],
        by norm_num [ensureSizingOnChoice, cexChoice, cexSchema, cexHost]⟩
      ⟨by norm_num [ensureSizingOnChoice, cexChoice, cexSchema],
        by norm_num [ensureSizingOnChoice, cexChoice, cexSchema, cexHost]⟩
      (by simp [parseChoice, resolveArguments, cexChoice, cexSchema, cexHost,
            ensureSizingOnChoice, collapseAlongDirection, applySnapOnChoice,
            applyStretchOnChoice, boundsBoxFx])⟩

/-- The running sums of `percent` over a list, starting from `s` (the
successive values of the `sum` accumulator inside `chooseAmong`). -/
def runningSums (percent : α → ℚ) : ℚ → List α → List ℚ
  | _, [] => []
  | s, c :: rest => (s + percent c) :: runningSums percent (s + percent c) rest

/-- The accumulation walk returns exactly the first element whose running
sum reaches the goal. -/
theorem chooseAmongLoop_eq_find (percent : α → ℚ) (g : ℚ) :
    ∀ (l : List α) (s : ℚ),
      chooseAmongLoop percent g s l =
        ((l.zip (runningSums percent s l)).find? fun p => decide (g ≤ p.2)).map
          Prod.fst
  | [], _ => rfl
  | c :: rest, s => by
    simp only [chooseAmongLoop, runningSums, List.zip_cons_cons, List.find?]
    by_cases h : g ≤ s + percent c
    · simp [h]
    · rw [if_neg h, chooseAmongLoop_eq_find percent g rest (s + percent c)]
      simp [h, List.zip]

/-- C4: `chooseAmong` returns `none` on an empty list and the sole element
(without consuming randomness) on a one-element list; otherwise it draws
`randomPercentage`, which lies in `[1, 100]` whenever the random source
yields a value in `[0, 1)`, and returns the first element whose running
percent sum reaches the drawn goal — `none` when no running sum does. -/
theorem chooseAmong_spec {α : Type} (percent : α → ℚ) (l : List α) (c : α)
    (rng : Rng) (k : ℕ) (hr : 0 ≤ rng k ∧ rng k < 1) :
    chooseAmong percent ([] : List α) rng k = (none, k)
    ∧ chooseAmong percent [c] rng k = (some c, k)
    ∧ (2 ≤ l.length →
        (1 ≤ randomPercentage rng k ∧ randomPercentage rng k ≤ 100)
        ∧ chooseAmong percent l rng k =
          (((l.zip (runningSums percent 0 l)).find? fun p =>
              decide (randomPercentage rng k ≤ p.2)).map Prod.fst, k + 1)) := by
  obtain ⟨hr0, hr1⟩ := hr
  refine ⟨by simp [chooseAmong], by simp [chooseAmong], fun hlen => ⟨⟨?_, ?_⟩, ?_⟩⟩
  · have h1 : (0 : ℚ) ≤ rng k * 100 := by nlinarith
    have h2 : (0 : ℚ) ≤ (⌊rng k * 100⌋ : ℚ) := by
      exact_mod_cast Int.floor_nonneg.mpr h1
    unfold randomPercentage
    linarith
  · have h2 : rng k * 100 < 100 := by nlinarith
    have h3 : ⌊rng k * 100⌋ < 100 := by
      apply Int.floor_lt.mpr
      push_cast
      linarith
    have h4 : ⌊rng k * 100⌋ ≤ 99 := by omega
    have h5 : ((⌊rng k * 100⌋ : ℤ) : ℚ) ≤ 99 := by exact_mod_cast h4
    unfold randomPercentage
    linarith
  · have hne0 : l.length ≠ 0 := by omega
    have hne1 : l.length ≠ 1 := by omega
    unfold chooseAmong
    simp [hne0, hne1, chooseAmongLoop_eq_find]

theorem chooseAmong_spec_witness :
    (0 ≤ (fun _ : ℕ => (1 : ℚ) / 2) 0 ∧ (fun _ : ℕ => (1 : ℚ) / 2) 0 < 1)
    ∧ (chooseAmong Prod.snd ([] : List (String × ℚ)) (fun _ => (1 : ℚ) / 2) 0 =
        (none, 0)
      ∧ chooseAmong Prod.snd [(("solo", 7) : String × ℚ)]
          (fun _ => (1 : ℚ) / 2) 0 = (some ("solo", 7), 0)
      ∧ (2 ≤ ([("a", 30), ("b", 40)] : List (String × ℚ)).length →
          (1 ≤ randomPercentage (fun _ => (1 : ℚ) / 2) 0
            ∧ randomPercentage (fun _ => (1 : ℚ) / 2) 0 ≤ 100)
          ∧ chooseAmong Prod.snd [("a", 30), ("b", 40)]
              (fun _ => (1 : ℚ) / 2) 0 =
            ((([("a", 30), ("b", 40)].zip
                (runningSums Prod.snd 0 [("a", 30), ("b", 40)])).find? fun p =>
                decide (randomPercentage (fun _ => (1 : ℚ) / 2) 0 ≤ p.2)).map
              Prod.fst, 0 + 1))) :=
  ⟨⟨by norm_num, by norm_num⟩,
    chooseAmong_spec Prod.snd [("a", 30), ("b", 40)] ("solo", 7)
      (fun _ => (1 : ℚ) / 2) 0 ⟨by norm_num, by norm_num⟩⟩

/-- Every edge of the extremes fold encloses both the starting box and
every folded child. -/
theorem wrapFold_bounds : ∀ (l : List Choice) (b : ChoiceBox),
    (b.top ≤ (l.foldl wrapExtremesStep b).top
      ∧ b.right ≤ (l.foldl wrapExtremesStep b).right
      ∧ (l.foldl wrapExtremesStep b).bottom ≤ b.bottom
      ∧ (l.foldl wrapExtremesStep b).left ≤ b.left)
    ∧ ∀ c ∈ l, c.top ≤ (l.foldl wrapExtremesStep b).top
      ∧ c.right ≤ (l.foldl wrapExtremesStep b).right
      ∧ (l.foldl wrapExtremesStep b).bottom ≤ c.bottom
      ∧ (l.foldl wrapExtremesStep b).left ≤ c.left
  | [], b => ⟨⟨le_refl _, le_refl _, le_refl _, le_refl _⟩, by simp⟩
  | c :: rest, b => by
    simp only [List.foldl_cons]
    obtain ⟨⟨it, ir, ib, il⟩, hmem⟩ := wrapFold_bounds rest (wrapExtremesStep b c)
    refine ⟨⟨le_trans (le_max_left b.top c.top) it,
      le_trans (le_max_left b.right c.right) ir,
      le_trans ib (min_le_left b.bottom c.bottom),
      le_trans il (min_le_left b.left c.left)⟩, ?_⟩
    intro d hd
    rcases List.mem_cons.mp hd with rfl | hd'
    · exact ⟨le_trans (le_max_right b.top d.top) it,
        le_trans (le_max_right b.right d.right) ir,
        le_trans ib (min_le_right b.bottom d.bottom),
        le_trans il (min_le_right b.left d.left)⟩
    · exact hmem d hd'

/-- Every edge of the extremes fold is attained: it is the starting box's
edge or some folded child's edge. -/
theorem wrapFold_attain : ∀ (l : List Choice) (b : ChoiceBox),
    ((l.foldl wrapExtremesStep b).top = b.top
      ∨ ∃ c ∈ l, (l.foldl wrapExtremesStep b).top = c.top)
    ∧ ((l.foldl wrapExtremesStep b).right = b.right
      ∨ ∃ c ∈ l, (l.foldl wrapExtremesStep b).right = c.right)
    ∧ ((l.foldl wrapExtremesStep b).bottom = b.bottom
      ∨ ∃ c ∈ l, (l.foldl wrapExtremesStep b).bottom = c.bottom)
    ∧ ((l.foldl wrapExtremesStep b).left = b.left
      ∨ ∃ c ∈ l, (l.foldl wrapExtremesStep b).left = c.left)
  | [], _ => ⟨Or.inl rfl, Or.inl rfl, Or.inl rfl, Or.inl rfl⟩
  | c :: rest, b => by
    simp only [List.foldl_cons]
    obtain ⟨ht, hr, hb, hl⟩ := wrapFold_attain rest (wrapExtremesStep b c)
    refine ⟨?_, ?_, ?_, ?_⟩
    · rcases ht with h | ⟨d, hd, h⟩
      · rcases max_choice b.top c.top with h' | h'
        · exact Or.inl (h.trans h')
        · exact Or.inr ⟨c, List.mem_cons_self _ _, h.trans h'⟩
      · exact Or.inr ⟨d, List.mem_cons_of_mem _ hd, h⟩
    · rcases hr with h | ⟨d, hd, h⟩
      · rcases max_choice b.right c.right with h' | h'
        · exact Or.inl (h.trans h')
        · exact Or.inr ⟨c, List.mem_cons_self _ _, h.trans h'⟩
      · exact Or.inr ⟨d, List.mem_cons_of_mem _ hd, h⟩
    · rcases hb with h | ⟨d, hd, h⟩
      · rcases min_choice b.bottom c.bottom with h' | h'
        · exact Or.inl (h.trans h')
        · exact Or.inr ⟨c, List.mem_cons_self _ _, h.trans h'⟩
      · exact Or.inr ⟨d, List.mem_cons_of_mem _ hd, h⟩
    · rcases hl with h | ⟨d, hd, h⟩
      · rcases min_choice b.left c.left with h' | h'
        · exact Or.inl (h.trans h')
        · exact Or.inr ⟨c, List.mem_cons_self _ _, h.trans h'⟩
      · exact Or.inr ⟨d, List.mem_cons_of_mem _ hd, h⟩

/-- C6: `wrapChoicePositionExtremes` returns nothing on a missing or empty
list; on a single-element list it returns a Choice whose rectangle is the
child's rectangle copied (the four edges; `title`, `width` and `height` are
left unset on this path); on longer lists its edges are the maximum of the
children's tops and rights and the minimum of their bottoms and lefts — the
tightest enclosing box — with `width` and `height` recomputed from those
final edges and the input list attached as `children`. -/
theorem wrapChoicePositionExtremes_spec :
    wrapChoicePositionExtremes none = none
    ∧ wrapChoicePositionExtremes (some []) = none
    ∧ (∀ c : Choice, wrapChoicePositionExtremes (some [c]) =
        some (.node { title := none, type := none, arguments := none,
                      width := none, height := none, top := c.top,
                      right := c.right, bottom := c.bottom, left := c.left }
          none (some [c])))
    ∧ (∀ c0 c1 rest, ∃ w : Choice,
        wrapChoicePositionExtremes (some (c0 :: c1 :: rest)) = some w
        ∧ (∀ c ∈ c0 :: c1 :: rest, c.top ≤ w.top ∧ c.right ≤ w.right
            ∧ w.bottom ≤ c.bottom ∧ w.left ≤ c.left)
        ∧ (∃ c ∈ c0 :: c1 :: rest, w.top = c.top)
        ∧ (∃ c ∈ c0 :: c1 :: rest, w.right = c.right)
        ∧ (∃ c ∈ c0 :: c1 :: rest, w.bottom = c.bottom)
        ∧ (∃ c ∈ c0 :: c1 :: rest, w.left = c.left)
        ∧ w.box.width = some (w.right - w.left)
        ∧ w.box.height = some (w.top - w.bottom)
        ∧ w.children = some (c0 :: c1 :: rest)) := by
  refine ⟨rfl, rfl, fun c => rfl, fun c0 c1 rest => ?_⟩
  obtain ⟨⟨it, ir, ib, il⟩, hmem⟩ := wrapFold_bounds (c1 :: rest)
    { title := none, top := c0.top, right := c0.right,
      bottom := c0.bottom, left := c0.left, width := none, height := none }
  obtain ⟨ht, hr, hb, hl⟩ := wrapFold_attain (c1 :: rest)
    { title := none, top := c0.top, right := c0.right,
      bottom := c0.bottom, left := c0.left, width := none, height := none }
  refine ⟨_, rfl, ?_, ?_, ?_, ?_, ?_, rfl, rfl, rfl⟩
  · intro c hc
    rcases List.mem_cons.mp hc with rfl | hc'
    · exact ⟨it, ir, ib, il⟩
    · exact hmem c hc'
  · rcases ht with h | ⟨d, hd, h⟩
    · exact ⟨c0, List.mem_cons_self _ _, h⟩
    · exact ⟨d, List.mem_cons_of_mem _ hd, h⟩
  · rcases hr with h | ⟨d, hd, h⟩
    · exact ⟨c0, List.mem_cons_self _ _, h⟩
    · exact ⟨d, List.mem_cons_of_mem _ hd, h⟩
  · rcases hb with h | ⟨d, hd, h⟩
    · exact ⟨c0, List.mem_cons_self _ _, h⟩
    · exact ⟨d, List.mem_cons_of_mem _ hd, h⟩
  · rcases hl with h | ⟨d, hd, h⟩
    · exact ⟨c0, List.mem_cons_self _ _, h⟩
    · exact ⟨d, List.mem_cons_of_mem _ hd, h⟩

theorem wrapChoicePositionExtremes_spec_witness :
    wrapChoicePositionExtremes (some [Choice.node boundsBoxFx none none]) =
      some (.node { title := none, type := none, arguments := none,
                    width := none, height := none, top := 5, right := 10,
                    bottom := 0, left := 0 }
        none (some [Choice.node boundsBoxFx none none])) :=
  wrapChoicePositionExtremes_spec.2.2.1 (Choice.node boundsBoxFx none none)

/-- A three-schema demonstration library: a Certain row of two Known
children (scenario S1 of the specification). -/
def demoLib : Library := fun n =>
  if n = "row" then
    some { width := 30, height := 10,
           contents := { mode := .Certain, direction := some .right,
                         children := [{ title := "a", type := .Known },
                                      { title := "b", type := .Known }] } }
  else if n = "a" then
    some { width := 10, height := 10, contents := { mode := .Certain } }
  else if n = "b" then
    some { width := 20, height := 10, contents := { mode := .Certain } }
  else none

/-- The starting command used with `demoLib`. -/
def demoCommand : Command :=
  { top := 10, right := 30, bottom := 0, left := 0, title := some "row" }

/-- C3: the generator is deterministic.  The only sources a run consults
are the possibility library, the starting command and the random stream —
all explicit arguments of the embedding — so two `generateFull` runs over
the same library, command and random stream, both starting from a cleared
command buffer, produce identical command buffers (the same terminal
Choices, with identical fields, in the same order) and identical final
random cursors. -/
theorem generateFull_deterministic (fuel : ℕ) (lib : Library)
    (command : Command) (rng : Rng) (run1 run2 : Res (List Choice × ℕ))
    (h1 : run1 = generateFull fuel lib command rng 0 [])
    (h2 : run2 = generateFull fuel lib command rng 0 []) : run1 = run2 :=
  h1.trans h2.symm

theorem generateFull_deterministic_witness :
    (generateFull 5 demoLib demoCommand (fun _ => 0) 0 [] =
        generateFull 5 demoLib demoCommand (fun _ => 0) 0 [])
    ∧ (generateFull 5 demoLib demoCommand (fun _ => 0) 0 [] =
        generateFull 5 demoLib demoCommand (fun _ => 0) 0 []) :=
  ⟨rfl, generateFull_deterministic 5 demoLib demoCommand (fun _ => 0) _ _ rfl rfl⟩

/-- C7: with a truthy positive `contents.limit`, the Random loop never
hands back a child list longer than the limit: the moment the accumulated
count exceeds the limit — right after a push — the whole call returns
`ok (none, …)`, the source's `undefined` abort, rather than the partial
list; while geometric exhaustion (the position already empty) and an empty
draw (`generateChild` returning nothing) both end the loop normally,
returning exactly the children accumulated so far. -/
theorem generateRandom_limit_behavior (lib : Library)
    (contents : PossibilityContents) (dir : Option Direction)
    (spacing : Spacing) (rng : Rng) (q : ℚ)
    (hq : contents.limit = some q) (hq0 : 0 < q) :
    (∀ fuel acc pos k l pos' kf, (acc.length : ℚ) ≤ q →
        generateRandomGo lib contents dir spacing rng fuel acc pos k =
          .ok (some l, pos', kf) → (l.length : ℚ) ≤ q)
    ∧ (∀ fuel acc pos k, positionIsNotEmpty pos dir = false →
        generateRandomGo lib contents dir spacing rng (fuel + 1) acc pos k =
          .ok (some acc, pos, k))
    ∧ (∀ fuel acc pos k kf, positionIsNotEmpty pos dir = true →
        generateChild lib contents pos dir rng k = .ok (none, kf) →
        generateRandomGo lib contents dir spacing rng (fuel + 1) acc pos k =
          .ok (some acc, pos, kf))
    ∧ (∀ fuel acc pos k box k2 pos1 k3,
        positionIsNotEmpty pos dir = true →
        generateChild lib contents pos dir rng k = .ok (some box, k2) →
        shrinkPositionByChild pos box dir spacing rng k2 = some (pos1, k3) →
        ((acc ++ [Choice.node box none none]).length : ℚ) > q →
        generateRandomGo lib contents dir spacing rng (fuel + 1) acc pos k =
          .ok (none, pos1, k3)) := by
  have htruthy : limitTruthy contents.limit = true := by
    simp [limitTruthy, hq, hq0.ne']
  refine ⟨?_, ?_, ?_, ?_⟩
  · intro fuel
    induction fuel with
    | zero =>
      intro acc pos k l pos' kf _ h
      exact absurd h (by simp [generateRandomGo])
    | succ n ih =>
      intro acc pos k l pos' kf hacc h
      rw [generateRandomGo] at h
      by_cases hpos : positionIsNotEmpty pos dir
      · rw [if_pos hpos] at h
        cases hch : generateChild lib contents pos dir rng k with
        | err m => rw [hch] at h; exact absurd h (by simp)
        | ranOut => rw [hch] at h; exact absurd h (by simp)
        | ok v =>
          obtain ⟨choice, k'⟩ := v
          cases choice with
          | none =>
            rw [hch] at h
            simp only [Option.some.injEq, Res.ok.injEq, Prod.mk.injEq] at h
            obtain ⟨h1, -, -⟩ := h
            subst h1
            exact hacc
          | some box =>
            rw [hch] at h
            dsimp only at h
            cases hsh : shrinkPositionByChild pos box dir spacing rng k' with
            | none => rw [hsh] at h; exact absurd h (by simp)
            | some v2 =>
              obtain ⟨p', k2⟩ := v2
              rw [hsh] at h
              dsimp only at h
              by_cases hlen : ((acc ++ [Choice.node box none none]).length : ℚ) >
                  contents.limit.getD 0
              · rw [if_pos ⟨by rw [htruthy], hlen⟩] at h
                exact absurd h (by simp)
              · rw [if_neg (fun hand => hlen hand.2)] at h
                refine ih _ _ _ l pos' kf ?_ h
                rw [hq] at hlen
                push_neg at hlen
                simpa using hlen
      · rw [if_neg hpos] at h
        simp only [Option.some.injEq, Res.ok.injEq, Prod.mk.injEq] at h
        obtain ⟨h1, -, -⟩ := h
        subst h1
        exact hacc
  · intro fuel acc pos k hpos
    rw [generateRandomGo, if_neg (by simp [hpos])]
  · intro fuel acc pos k kf hpos hch
    rw [generateRandomGo, if_pos (by simp [hpos]), hch]
  · intro fuel acc pos k box k2 pos1 k3 hpos hch hsh hlen
    rw [generateRandomGo, if_pos (by simp [hpos]), hch]
    dsimp only
    rw [hsh]
    dsimp only
    rw [if_pos ⟨by rw [htruthy], by rw [hq]; simpa using hlen⟩]

/-- C10: a `contents.limit` equal to 0 is falsy in the source's
`contents.limit && …` guard, so Random generation with `limit = 0` never
aborts with `undefined` on account of the limit: the loop can only end by
the position becoming empty or by no fitting child being chosen. -/
theorem generateRandom_limitZero_noAbort (lib : Library)
    (contents : PossibilityContents) (dir : Option Direction)
    (spacing : Spacing) (rng : Rng) (hlimit : contents.limit = some 0) :
    ∀ fuel acc pos k pos' kf,
      generateRandomGo lib contents dir spacing rng fuel acc pos k ≠
        .ok (none, pos', kf) := by
  have hfalse : limitTruthy contents.limit = false := by
    simp [limitTruthy, hlimit]
  intro fuel
  induction fuel with
  | zero =>
    intro acc pos k pos' kf h
    exact absurd h (by simp [generateRandomGo])
  | succ n ih =>
    intro acc pos k pos' kf h
    rw [generateRandomGo] at h
    by_cases hpos : positionIsNotEmpty pos dir
    · rw [if_pos hpos] at h
      cases hch : generateChild lib contents pos dir rng k with
      | err m => rw [hch] at h; exact absurd h (by simp)
      | ranOut => rw [hch] at h; exact absurd h (by simp)
      | ok v =>
        obtain ⟨choice, k'⟩ := v
        cases choice with
        | none => rw [hch] at h; dsimp only at h; exact absurd h (by simp)
        | some box =>
          rw [hch] at h
          dsimp only at h
          cases hsh : shrinkPositionByChild pos box dir spacing rng k' with
          | none => rw [hsh] at h; exact absurd h (by simp)
          | some v2 =>
            obtain ⟨p', k2⟩ := v2
            rw [hsh] at h
            dsimp only at h
            rw [if_neg (fun hand => by simp [hfalse] at hand)] at h
            exact ih _ _ _ _ _ h
    · rw [if_neg hpos] at h
      exact absurd h (by simp)

/-- Random-mode contents with a hard cap of 2 over one always-chosen
child. -/
def randContentsFx : PossibilityContents :=
  { mode := .Random, direction := some .right, limit := some 2,
    children := [{ title := "a", type := .Known, percent := 100 }] }

/-- The same contents with `limit = 0`, falsy in the source's guard. -/
def randContentsZeroFx : PossibilityContents :=
  { mode := .Random, direction := some .right, limit := some 0,
    children := [{ title := "a", type := .Known, percent := 100 }] }

/-- A library holding the single 10 x 10 schema the Random fixtures
reference. -/
def randLibFx : Library := fun n =>
  if n = "a" then
    some { width := 10, height := 10, contents := { mode := .Certain } }
  else none

theorem generateRandom_limit_behavior_witness :
    (randContentsFx.limit = some 2 ∧ (0 : ℚ) < 2)
    ∧ ((∀ fuel acc pos k l pos' kf, (acc.length : ℚ) ≤ 2 →
        generateRandomGo randLibFx randContentsFx (some Direction.right)
          (Spacing.num 0) (fun _ => 0) fuel acc pos k =
          .ok (some l, pos', kf) → (l.length : ℚ) ≤ 2)
      ∧ (∀ fuel acc pos k, positionIsNotEmpty pos (some Direction.right) = false →
          generateRandomGo randLibFx randContentsFx (some Direction.right)
            (Spacing.num 0) (fun _ => 0) (fuel + 1) acc pos k =
            .ok (some acc, pos, k))
      ∧ (∀ fuel acc pos k kf, positionIsNotEmpty pos (some Direction.right) = true →
          generateChild randLibFx randContentsFx pos (some Direction.right)
            (fun _ => 0) k = .ok (none, kf) →
          generateRandomGo randLibFx randContentsFx (some Direction.right)
            (Spacing.num 0) (fun _ => 0) (fuel + 1) acc pos k =
            .ok (some acc, pos, kf))
      ∧ (∀ fuel acc pos k box k2 pos1 k3,
          positionIsNotEmpty pos (some Direction.right) = true →
          generateChild randLibFx randContentsFx pos (some Direction.right)
            (fun _ => 0) k = .ok (some box, k2) →
          shrinkPositionByChild pos box (some Direction.right) (Spacing.num 0)
            (fun _ => 0) k2 = some (pos1, k3) →
          ((acc ++ [Choice.node box none none]).length : ℚ) > 2 →
          generateRandomGo randLibFx randContentsFx (some Direction.right)
            (Spacing.num 0) (fun _ => 0) (fuel + 1) acc pos k =
            .ok (none, pos1, k3))) :=
  ⟨⟨rfl, by norm_num⟩,
    generateRandom_limit_behavior randLibFx randContentsFx
      (some Direction.right) (Spacing.num 0) (fun _ => 0) 2 rfl (by norm_num)⟩

theorem generateRandom_limitZero_noAbort_witness :
    randContentsZeroFx.limit = some 0 ∧
    (∀ fuel acc pos k pos' kf,
      generateRandomGo randLibFx randContentsZeroFx (some Direction.right)
        (Spacing.num 0) (fun _ => 0) fuel acc pos k ≠ .ok (none, pos', kf)) :=
  ⟨rfl, generateRandom_limitZero_noAbort randLibFx randContentsZeroFx
    (some Direction.right) (Spacing.num 0) (fun _ => 0) rfl⟩

/-- A plain numeric spacing always resolves to itself (the falsy `0` via
the `!spacing` guard, any other number via the `default` branch). -/
theorem parseSpacingNum_num (s : ℚ) (rng : Rng) (k : ℕ) :
    parseSpacingNum (Spacing.num s) rng k = some (s, k) := by
  by_cases h : s = 0
  · subst h
    simp [parseSpacingNum, parseSpacing, spacingFalsy]
  · simp [parseSpacingNum, parseSpacing, spacingFalsy, h]

/-- Along direction top the collapse step leaves `bottom` on the host's
bottom and puts `top` exactly one height above it; from such a box every
`snap` case keeps `bottom` in place (snap-top recomputes it as
`top - height`, landing back where it was). -/
theorem applySnapOnChoice_bottom (b : ChoiceBox) (snap : Option Direction)
    (h : ℚ) (hbh : b.height = some h) (hbt : b.top = b.bottom + h) :
    (applySnapOnChoice b snap).bottom = b.bottom := by
  cases snap with
  | none => rfl
  | some sd =>
    cases sd with
    | top =>
      simp only [applySnapOnChoice, hbh, Option.getD_some, hbt]
      ring
    | right => rfl
    | bottom => rfl
    | left => rfl

/-- Mirror of `applySnapOnChoice_bottom` for direction right: every `snap`
case keeps `left` on the host's left. -/
theorem applySnapOnChoice_left (b : ChoiceBox) (snap : Option Direction)
    (w : ℚ) (hbw : b.width = some w) (hbr : b.right = b.left + w) :
    (applySnapOnChoice b snap).left = b.left := by
  cases snap with
  | none => rfl
  | some sd =>
    cases sd with
    | top => rfl
    | right =>
      simp only [applySnapOnChoice, hbw, Option.getD_some, hbr]
      ring
    | bottom => rfl
    | left => rfl

/-- A height-stretch sets `bottom` to the host's bottom, so a box whose
`bottom` is already there keeps it through the `stretch` step. -/
theorem applyStretchOnChoice_bottom (b : ChoiceBox)
    (stretch : Option StretchSpec) (pos : Command)
    (hb : b.bottom = pos.bottom) :
    (applyStretchOnChoice b stretch pos).bottom = pos.bottom := by
  cases stretch with
  | none => exact hb
  | some st =>
    dsimp only [applyStretchOnChoice]
    by_cases hsw : st.width <;> by_cases hsh : st.height <;>
      simp [hsw, hsh, hb]

/-- A width-stretch sets `left` to the host's left, so a box whose `left`
is already there keeps it through the `stretch` step. -/
theorem applyStretchOnChoice_left (b : ChoiceBox)
    (stretch : Option StretchSpec) (pos : Command)
    (hb : b.left = pos.left) :
    (applyStretchOnChoice b stretch pos).left = pos.left := by
  cases stretch with
  | none => exact hb
  | some st =>
    dsimp only [applyStretchOnChoice]
    by_cases hsw : st.width <;> by_cases hsh : st.height <;>
      simp [hsw, hsh, hb]

/-- Every box `parseChoice` yields along direction top keeps its `bottom`
exactly on the host's bottom, and along direction right its `left` exactly
on the host's left — whatever the `snap` and the `stretch`. -/
theorem parseChoice_packedEdges (sc : Possibility) (choice : PossibilityChild)
    (pos : Command) (d : Direction) (rng : Rng) (k : ℕ) (box : ChoiceBox)
    (k1 : ℕ) (hd : d = Direction.top ∨ d = Direction.right)
    (hp : parseChoice sc choice pos (some d) rng k = some (box, k1)) :
    (d = Direction.top → box.bottom = pos.bottom) ∧
    (d = Direction.right → box.left = pos.left) := by
  unfold parseChoice at hp
  cases hra : resolveArguments choice.arguments rng k with
  | none => rw [hra] at hp; exact absurd hp (by simp)
  | some v =>
    obtain ⟨args, k1'⟩ := v
    rw [hra] at hp
    simp only [Option.some.injEq, Prod.mk.injEq] at hp
    obtain ⟨hbox, -⟩ := hp
    rcases hd with rfl | rfl
    · refine ⟨fun _ => ?_, fun hco => absurd hco (by simp)⟩
      rw [← hbox]
      apply applyStretchOnChoice_bottom
      exact (applySnapOnChoice_bottom _ sc.contents.snap
        (ensureSizingOnChoice choice sc).2 rfl rfl).trans rfl
    · refine ⟨fun hco => absurd hco (by simp), fun _ => ?_⟩
      rw [← hbox]
      apply applyStretchOnChoice_left
      exact (applySnapOnChoice_left _ sc.contents.snap
        (ensureSizingOnChoice choice sc).1 rfl rfl).trans rfl

/-- Boxes drawn by `generateChild` come out of `parseChoice`, so they hug
the host's near edge along the packing direction too. -/
theorem generateChild_packedEdges (lib : Library)
    (contents : PossibilityContents) (pos : Command) (d : Direction)
    (rng : Rng) (k : ℕ) (box : ChoiceBox) (k' : ℕ)
    (hd : d = Direction.top ∨ d = Direction.right)
    (h : generateChild lib contents pos (some d) rng k = .ok (some box, k')) :
    (d = Direction.top → box.bottom = pos.bottom) ∧
    (d = Direction.right → box.left = pos.left) := by
  unfold generateChild at h
  cases hca : chooseAmongPosition lib contents.children pos rng k with
  | err m => rw [hca] at h; exact absurd h (by simp)
  | ranOut => rw [hca] at h; exact absurd h (by simp)
  | ok v =>
    obtain ⟨oc, k1⟩ := v
    cases oc with
    | none => rw [hca] at h; exact absurd h (by simp)
    | some choice =>
      rw [hca] at h
      dsimp only at h
      cases hsc : lib choice.title with
      | none => rw [hsc] at h; exact absurd h (by simp)
      | some sc =>
        rw [hsc] at h
        dsimp only at h
        cases hp : parseChoice sc choice pos (some d) rng k1 with
        | none => rw [hp] at h; exact absurd h (by simp)
        | some v2 =>
          obtain ⟨b2, k2⟩ := v2
          rw [hp] at h
          simp only [Res.ok.injEq, Prod.mk.injEq, Option.some.injEq] at h
          obtain ⟨h1, -⟩ := h
          subst h1
          exact parseChoice_packedEdges sc choice pos d rng k1 b2 k2 hd hp

theorem sumExtentsAlong_nil (d : Direction) : sumExtentsAlong d [] = 0 := rfl

theorem sumExtentsAlong_cons (d : Direction) (c : Choice) (cs : List Choice) :
    sumExtentsAlong d (c :: cs) =
      boxExtentAlong d c.box + sumExtentsAlong d cs := by
  simp [sumExtentsAlong]

theorem sumExtentsAlong_append (d : Direction) (a b : List Choice) :
    sumExtentsAlong d (a ++ b) =
      sumExtentsAlong d a + sumExtentsAlong d b := by
  simp [sumExtentsAlong]

/-- One shrink step along top or right, measured: when the spacing
resolves, the new position loses exactly the packed box's extent plus the
resolved spacing along the direction, and keeps its cross extent; when the
spacing does not resolve the step fails (`none`) and the run errors. -/
theorem shrinkPositionByChild_measure (d : Direction) (pos : Command)
    (box : ChoiceBox) (spacing : Spacing) (rng : Rng) (k2 : ℕ)
    (hd : d = Direction.top ∨ d = Direction.right)
    (hnear : (d = Direction.top → box.bottom = pos.bottom) ∧
      (d = Direction.right → box.left = pos.left)) :
    shrinkPositionByChild pos box (some d) spacing rng k2 = none ∨
    ∃ pos1 k3 s,
      shrinkPositionByChild pos box (some d) spacing rng k2 = some (pos1, k3)
      ∧ parseSpacingNum spacing rng k2 = some (s, k3)
      ∧ extentAlong d pos1 = extentAlong d pos - (boxExtentAlong d box + s)
      ∧ crossExtentAlong d pos1 = crossExtentAlong d pos := by
  rcases hd with rfl | rfl
  · cases hps : parseSpacingNum spacing rng k2 with
    | none => left; rw [shrinkPositionByChild, hps]; rfl
    | some v =>
      obtain ⟨s, k3⟩ := v
      right
      refine ⟨{ pos with bottom := box.top + s }, k3, s, ?_, rfl, ?_, rfl⟩
      · rw [shrinkPositionByChild, hps]; rfl
      · dsimp [extentAlong, boxExtentAlong]
        rw [hnear.1 rfl]
        ring
  · cases hps : parseSpacingNum spacing rng k2 with
    | none => left; rw [shrinkPositionByChild, hps]; rfl
    | some v =>
      obtain ⟨s, k3⟩ := v
      right
      refine ⟨{ pos with left := box.right + s }, k3, s, ?_, rfl, ?_, rfl⟩
      · rw [shrinkPositionByChild, hps]; rfl
      · dsimp [extentAlong, boxExtentAlong]
        rw [hnear.2 rfl]
        ring

/-- Packing measurement for a Certain run over non-`Final` children: the
final position's extent along the direction has shrunk by at least the sum
of the placed children's extents, and its cross extent is unchanged. -/
theorem certainPacking_aux
    (gen : Option String → Command → ℕ → Res (Option Choice × ℕ))
    (lib : Library) (d : Direction) (spacing : Spacing) (rng : Rng)
    (hd : d = Direction.top ∨ d = Direction.right)
    (hsp : ∀ k n k', parseSpacingNum spacing rng k = some (n, k') → 0 ≤ n) :
    ∀ (cl : List PossibilityChild) (pos : Command) (k : ℕ),
      (∀ choice ∈ cl, choice.type ≠ ChildType.Final) →
      ∀ cs pos' kf,
        generateCertainGo gen lib (some d) spacing rng cl pos k =
          .ok (cs, pos', kf) →
        extentAlong d pos' ≤ extentAlong d pos - sumExtentsAlong d cs
        ∧ crossExtentAlong d pos' = crossExtentAlong d pos
  | [], pos, k => by
    intro _ cs pos' kf h
    simp only [generateCertainGo, Res.ok.injEq, Prod.mk.injEq] at h
    obtain ⟨h1, h2, -⟩ := h
    subst h1
    subst h2
    exact ⟨by simp [sumExtentsAlong], rfl⟩
  | choice :: rest, pos, k => by
    intro hcl cs pos' kf h
    have hnf := hcl choice (List.mem_cons_self _ _)
    rw [generateCertainGo, if_neg hnf] at h
    cases hsc : lib choice.title with
    | none => rw [hsc] at h; exact absurd h (by simp)
    | some sc =>
      rw [hsc] at h
      dsimp only at h
      cases hp : parseChoice sc choice pos (some d) rng k with
      | none => rw [hp] at h; exact absurd h (by simp)
      | some v =>
        obtain ⟨box, k1⟩ := v
        rw [hp] at h
        dsimp only at h
        have hnear := parseChoice_packedEdges sc choice pos d rng k box k1 hd hp
        by_cases hk : choice.type = ChildType.Known
        · rw [if_pos hk] at h
          dsimp only at h
          rcases shrinkPositionByChild_measure d pos box spacing rng k1 hd hnear with
            hsh | ⟨pos1, k3, s, hsh, hps, hext1, hcross1⟩
          · rw [hsh] at h; exact absurd h (by simp)
          · rw [hsh] at h
            dsimp only at h
            cases hgo : generateCertainGo gen lib (some d) spacing rng rest pos1 k3 with
            | err m => rw [hgo] at h; exact absurd h (by simp)
            | ranOut => rw [hgo] at h; exact absurd h (by simp)
            | ok v3 =>
              obtain ⟨cs2, p2, kf2⟩ := v3
              rw [hgo] at h
              simp only [Res.ok.injEq, Prod.mk.injEq] at h
              obtain ⟨h1, h2, -⟩ := h
              rw [← h1, ← h2]
              obtain ⟨hext, hcross⟩ := certainPacking_aux gen lib d spacing rng hd hsp
                rest pos1 k3 (fun c hc => hcl c (List.mem_cons_of_mem _ hc))
                cs2 p2 kf2 hgo
              have hs0 : 0 ≤ s := hsp _ _ _ hps
              refine ⟨?_, hcross.trans hcross1⟩
              rw [sumExtentsAlong_cons]
              rw [hext1] at hext
              dsimp only [Choice.box]
              linarith
        · rw [if_neg hk] at h
          cases hgen : gen (some choice.title) pos k1 with
          | err m => rw [hgen] at h; exact absurd h (by simp)
          | ranOut => rw [hgen] at h; exact absurd h (by simp)
          | ok v2 =>
            obtain ⟨cc, k2⟩ := v2
            rw [hgen] at h
            dsimp only at h
            rcases shrinkPositionByChild_measure d pos box spacing rng k2 hd hnear with
              hsh | ⟨pos1, k3, s, hsh, hps, hext1, hcross1⟩
            · rw [hsh] at h; exact absurd h (by simp)
            · rw [hsh] at h
              dsimp only at h
              cases hgo : generateCertainGo gen lib (some d) spacing rng rest pos1 k3 with
              | err m => rw [hgo] at h; exact absurd h (by simp)
              | ranOut => rw [hgo] at h; exact absurd h (by simp)
              | ok v3 =>
                obtain ⟨cs2, p2, kf2⟩ := v3
                rw [hgo] at h
                simp only [Res.ok.injEq, Prod.mk.injEq] at h
                obtain ⟨h1, h2, -⟩ := h
                rw [← h1, ← h2]
                obtain ⟨hext, hcross⟩ := certainPacking_aux gen lib d spacing rng hd hsp
                  rest pos1 k3 (fun c hc => hcl c (List.mem_cons_of_mem _ hc))
                  cs2 p2 kf2 hgo
                have hs0 : 0 ≤ s := hsp _ _ _ hps
                refine ⟨?_, hcross.trans hcross1⟩
                rw [sumExtentsAlong_cons]
                rw [hext1] at hext
                dsimp only [Choice.box]
                linarith

/-- Packing measurement for a Repeat run: no restriction on the children —
`Final` children are parsed at the host edges and shrunk like every other
child here — the extent shrinks by at least the placed children's total
extent and the cross extent is unchanged. -/
theorem repeatPacking_aux
    (gen : Option String → Command → ℕ → Res (Option Choice × ℕ))
    (lib : Library) (children : List PossibilityChild) (d : Direction)
    (spacing : Spacing) (rng : Rng)
    (hd : d = Direction.top ∨ d = Direction.right)
    (hsp : ∀ k n k', parseSpacingNum spacing rng k = some (n, k') → 0 ≤ n) :
    ∀ (fuel i : ℕ) (pos : Command) (k : ℕ) cs pos' kf,
      generateRepeatGo gen lib children (some d) spacing rng fuel i pos k =
        .ok (cs, pos', kf) →
      extentAlong d pos' ≤ extentAlong d pos - sumExtentsAlong d cs
      ∧ crossExtentAlong d pos' = crossExtentAlong d pos
  | 0, i, pos, k => by
    intro cs pos' kf h
    exact absurd h (by simp [generateRepeatGo])
  | fuel + 1, i, pos, k => by
    intro cs pos' kf h
    rw [generateRepeatGo] at h
    by_cases hpos : positionIsNotEmpty pos (some d)
    case neg =>
      rw [if_neg hpos] at h
      simp only [Res.ok.injEq, Prod.mk.injEq] at h
      obtain ⟨h1, h2, -⟩ := h
      subst h1
      subst h2
      exact ⟨by simp [sumExtentsAlong], rfl⟩
    case pos =>
    rw [if_pos hpos] at h
    cases hci : children.get? i with
    | none => rw [hci] at h; exact absurd h (by simp)
    | some choice =>
      rw [hci] at h
      dsimp only at h
      by_cases hf : choice.type = ChildType.Final
      · rw [if_pos hf] at h
        cases hsrc : choice.source.bind lib with
        | none => rw [hsrc] at h; exact absurd h (by simp)
        | some src =>
          rw [hsrc] at h
          dsimp only at h
          by_cases hfits : choiceFitsPosition (parseChoiceFinal src choice pos) pos
          · rw [if_pos hfits] at h
            have hnear : (d = Direction.top →
                  (parseChoiceFinal src choice pos).bottom = pos.bottom) ∧
                (d = Direction.right →
                  (parseChoiceFinal src choice pos).left = pos.left) :=
              ⟨fun _ => rfl, fun _ => rfl⟩
            rcases shrinkPositionByChild_measure d pos
                (parseChoiceFinal src choice pos) spacing rng k hd hnear with
              hsh | ⟨pos1, k3, s, hsh, hps, hext1, hcross1⟩
            · rw [hsh] at h; exact absurd h (by simp)
            · rw [hsh] at h
              dsimp only at h
              cases hgo : generateRepeatGo gen lib children (some d) spacing rng fuel
                  (if i + 1 ≥ children.length then 0 else i + 1) pos1 k3 with
              | err m2 => rw [hgo] at h; exact absurd h (by simp)
              | ranOut => rw [hgo] at h; exact absurd h (by simp)
              | ok v3 =>
                obtain ⟨cs2, p2, kf2⟩ := v3
                rw [hgo] at h
                simp only [Res.ok.injEq, Prod.mk.injEq] at h
                obtain ⟨h1, h2, -⟩ := h
                rw [← h1, ← h2]
                obtain ⟨hext, hcross⟩ := repeatPacking_aux gen lib children d
                  spacing rng hd hsp fuel
                  (if i + 1 ≥ children.length then 0 else i + 1) pos1 k3
                  cs2 p2 kf2 hgo
                have hs0 : 0 ≤ s := hsp _ _ _ hps
                refine ⟨?_, hcross.trans hcross1⟩
                rw [sumExtentsAlong_cons]
                rw [hext1] at hext
                dsimp only [Choice.box]
                linarith
          · rw [if_neg hfits] at h
            simp only [Res.ok.injEq, Prod.mk.injEq] at h
            obtain ⟨h1, h2, -⟩ := h
            subst h1
            subst h2
            exact ⟨by simp [sumExtentsAlong], rfl⟩
      · rw [if_neg hf] at h
        cases hlib : lib choice.title with
        | none => rw [hlib] at h; exact absurd h (by simp)
        | some schema =>
          rw [hlib] at h
          dsimp only at h
          cases hp : parseChoice schema choice pos (some d) rng k with
          | none => rw [hp] at h; exact absurd h (by simp)
          | some v =>
            obtain ⟨box, k1⟩ := v
            rw [hp] at h
            dsimp only at h
            have hnear := parseChoice_packedEdges schema choice pos d rng k box k1 hd hp
            by_cases hk : choice.type = ChildType.Known
            · rw [if_pos hk] at h
              dsimp only at h
              by_cases hfits : choiceFitsPosition box pos
              · rw [if_pos hfits] at h
                rcases shrinkPositionByChild_measure d pos box spacing rng k1 hd hnear with
                  hsh | ⟨pos1, k3, s, hsh, hps, hext1, hcross1⟩
                · rw [hsh] at h; exact absurd h (by simp)
                · rw [hsh] at h
                  dsimp only at h
                  cases hgo : generateRepeatGo gen lib children (some d) spacing rng fuel
                      (if i + 1 ≥ children.length then 0 else i + 1) pos1 k3 with
                  | err m2 => rw [hgo] at h; exact absurd h (by simp)
                  | ranOut => rw [hgo] at h; exact absurd h (by simp)
                  | ok v3 =>
                    obtain ⟨cs2, p2, kf2⟩ := v3
                    rw [hgo] at h
                    simp only [Res.ok.injEq, Prod.mk.injEq] at h
                    obtain ⟨h1, h2, -⟩ := h
                    rw [← h1, ← h2]
                    obtain ⟨hext, hcross⟩ := repeatPacking_aux gen lib children d
                      spacing rng hd hsp fuel
                      (if i + 1 ≥ children.length then 0 else i + 1) pos1 k3
                      cs2 p2 kf2 hgo
                    have hs0 : 0 ≤ s := hsp _ _ _ hps
                    refine ⟨?_, hcross.trans hcross1⟩
                    rw [sumExtentsAlong_cons]
                    rw [hext1] at hext
                    dsimp only [Choice.box]
                    linarith
              · rw [if_neg hfits] at h
                simp only [Res.ok.injEq, Prod.mk.injEq] at h
                obtain ⟨h1, h2, -⟩ := h
                subst h1
                subst h2
                exact ⟨by simp [sumExtentsAlong], rfl⟩
            · rw [if_neg hk] at h
              cases hgen : gen (some choice.title) pos k1 with
              | err m2 => rw [hgen] at h; exact absurd h (by simp)
              | ranOut => rw [hgen] at h; exact absurd h (by simp)
              | ok v2 =>
                obtain ⟨cc, k2⟩ := v2
                rw [hgen] at h
                dsimp only at h
                by_cases hfits : choiceFitsPosition box pos
                · rw [if_pos hfits] at h
                  rcases shrinkPositionByChild_measure d pos box spacing rng k2 hd hnear with
                    hsh | ⟨pos1, k3, s, hsh, hps, hext1, hcross1⟩
                  · rw [hsh] at h; exact absurd h (by simp)
                  · rw [hsh] at h
                    dsimp only at h
                    cases hgo : generateRepeatGo gen lib children (some d) spacing rng fuel
                        (if i + 1 ≥ children.length then 0 else i + 1) pos1 k3 with
                    | err m2 => rw [hgo] at h; exact absurd h (by simp)
                    | ranOut => rw [hgo] at h; exact absurd h (by simp)
                    | ok v3 =>
                      obtain ⟨cs2, p2, kf2⟩ := v3
                      rw [hgo] at h
                      simp only [Res.ok.injEq, Prod.mk.injEq] at h
                      obtain ⟨h1, h2, -⟩ := h
                      rw [← h1, ← h2]
                      obtain ⟨hext, hcross⟩ := repeatPacking_aux gen lib children d
                        spacing rng hd hsp fuel
                        (if i + 1 ≥ children.length then 0 else i + 1) pos1 k3
                        cs2 p2 kf2 hgo
                      have hs0 : 0 ≤ s := hsp _ _ _ hps
                      refine ⟨?_, hcross.trans hcross1⟩
                      rw [sumExtentsAlong_cons]
                      rw [hext1] at hext
                      dsimp only [Choice.box]
                      linarith
                · rw [if_neg hfits] at h
                  simp only [Res.ok.injEq, Prod.mk.injEq] at h
                  obtain ⟨h1, h2, -⟩ := h
                  subst h1
                  subst h2
                  exact ⟨by simp [sumExtentsAlong], rfl⟩

/-- Packing measurement for a Random run that returns a list: the returned
list extends the accumulator, and the extent has shrunk by at least the
total extent of the newly drawn children, the cross extent unchanged. -/
theorem randomPacking_aux (lib : Library) (contents : PossibilityContents)
    (d : Direction) (spacing : Spacing) (rng : Rng)
    (hd : d = Direction.top ∨ d = Direction.right)
    (hsp : ∀ k n k', parseSpacingNum spacing rng k = some (n, k') → 0 ≤ n) :
    ∀ (fuel : ℕ) (acc : List Choice) (pos : Command) (k : ℕ) l pos' kf,
      generateRandomGo lib contents (some d) spacing rng fuel acc pos k =
        .ok (some l, pos', kf) →
      ∃ nw, l = acc ++ nw
        ∧ extentAlong d pos' ≤ extentAlong d pos - sumExtentsAlong d nw
        ∧ crossExtentAlong d pos' = crossExtentAlong d pos := by
  intro fuel
  induction fuel with
  | zero =>
    intro acc pos k l pos' kf h
    exact absurd h (by simp [generateRandomGo])
  | succ n ih =>
    intro acc pos k l pos' kf h
    rw [generateRandomGo] at h
    by_cases hpos : positionIsNotEmpty pos (some d)
    · rw [if_pos hpos] at h
      cases hch : generateChild lib contents pos (some d) rng k with
      | err m => rw [hch] at h; exact absurd h (by simp)
      | ranOut => rw [hch] at h; exact absurd h (by simp)
      | ok v =>
        obtain ⟨ob, k1⟩ := v
        cases ob with
        | none =>
          rw [hch] at h
          simp only [Res.ok.injEq, Prod.mk.injEq, Option.some.injEq] at h
          obtain ⟨h1, h2, -⟩ := h
          subst h1
          subst h2
          exact ⟨[], by simp, by simp [sumExtentsAlong], rfl⟩
        | some box =>
          rw [hch] at h
          dsimp only at h
          have hnear := generateChild_packedEdges lib contents pos d rng k box k1 hd hch
          rcases shrinkPositionByChild_measure d pos box spacing rng k1 hd hnear with
            hsh | ⟨pos1, k3, s, hsh, hps, hext1, hcross1⟩
          · rw [hsh] at h; exact absurd h (by simp)
          · rw [hsh] at h
            dsimp only at h
            by_cases hlim : limitTruthy contents.limit ∧
                (((acc ++ [Choice.node box none none]).length : ℚ) >
                  contents.limit.getD 0)
            · rw [if_pos hlim] at h
              exact absurd h (by simp)
            · rw [if_neg hlim] at h
              obtain ⟨nw2, hl, hext, hcross⟩ := ih _ _ _ l pos' kf h
              have hs0 : 0 ≤ s := hsp _ _ _ hps
              refine ⟨Choice.node box none none :: nw2, ?_, ?_, hcross.trans hcross1⟩
              · rw [hl]
                simp
              · rw [sumExtentsAlong_cons]
                rw [hext1] at hext
                dsimp only [Choice.box]
                linarith
    · rw [if_neg hpos] at h
      simp only [Res.ok.injEq, Prod.mk.injEq, Option.some.injEq] at h
      obtain ⟨h1, h2, -⟩ := h
      subst h1
      subst h2
      exact ⟨[], by simp, by simp [sumExtentsAlong], rfl⟩

/-- Area as the product of the extent along a direction and the cross
extent. -/
theorem area_eq_extent_mul_cross (d : Direction) (p : Command) :
    area p = extentAlong d p * crossExtentAlong d p := by
  cases d <;> simp [area, extentAlong, crossExtentAlong, mul_comm]

/-- Extent shrinkage with an unchanged non-negative cross extent bounds
the area. -/
theorem area_le_of_extent (d : Direction) (pos pos2 : Command) (S : ℚ)
    (hext : extentAlong d pos2 ≤ extentAlong d pos - S)
    (hcrosseq : crossExtentAlong d pos2 = crossExtentAlong d pos)
    (hcross : 0 ≤ crossExtentAlong d pos) (hS : 0 ≤ S) :
    area pos2 ≤ area pos := by
  rw [area_eq_extent_mul_cross d pos2, area_eq_extent_mul_cross d pos, hcrosseq]
  exact mul_le_mul_of_nonneg_right (by linarith) hcross

/-- C5 amended: packing is monotonic along directions top and right, in
every child-driven mode and under arbitrary `snap` and `stretch`, as long
as every spacing resolution is non-negative.  Each shrink step cuts
exactly the packed child's extent plus the resolved spacing off the
position, so: one `shrinkPositionByChild` of a packed child (a box hugging
the position's near edge) with non-negative extent weakly decreases the
area; and after a Certain run over non-`Final` children, any Repeat run,
or any Random run, the position's extent along the direction has decreased
by at least the sum of the placed children's extents — spacing only adds
to the decrease — with the area weakly decreasing whenever that sum and
the cross extent are non-negative.  (Along bottom or left the collapse
step places children outside the host and packing *grows* the position,
see the counterexample; `Final` children of a Certain run are materialised
at the full host without shrinking it, which is why only they are excluded
from the extent accounting.) -/
theorem packing_monotone_topRight
    (gen : Option String → Command → ℕ → Res (Option Choice × ℕ))
    (lib : Library) (d : Direction) (spacing : Spacing) (rng : Rng)
    (hd : d = Direction.top ∨ d = Direction.right)
    (hsp : ∀ k n k', parseSpacingNum spacing rng k = some (n, k') → 0 ≤ n) :
    (∀ (pos : Command) (box : ChoiceBox) (k2 k3 : ℕ) (pos1 : Command),
        ((d = Direction.top → box.bottom = pos.bottom) ∧
          (d = Direction.right → box.left = pos.left)) →
        0 ≤ boxExtentAlong d box → 0 ≤ crossExtentAlong d pos →
        shrinkPositionByChild pos box (some d) spacing rng k2 =
          some (pos1, k3) →
        area pos1 ≤ area pos)
    ∧ (∀ (cl : List PossibilityChild) (pos : Command) (k : ℕ),
        (∀ choice ∈ cl, choice.type ≠ ChildType.Final) →
        ∀ cs pos' kf,
          generateCertainGo gen lib (some d) spacing rng cl pos k =
            .ok (cs, pos', kf) →
          extentAlong d pos' ≤ extentAlong d pos - sumExtentsAlong d cs
          ∧ (0 ≤ crossExtentAlong d pos → 0 ≤ sumExtentsAlong d cs →
              area pos' ≤ area pos))
    ∧ (∀ (children : List PossibilityChild) (fuel i : ℕ) (pos : Command)
          (k : ℕ) cs pos' kf,
        generateRepeatGo gen lib children (some d) spacing rng fuel i pos k =
          .ok (cs, pos', kf) →
        extentAlong d pos' ≤ extentAlong d pos - sumExtentsAlong d cs
        ∧ (0 ≤ crossExtentAlong d pos → 0 ≤ sumExtentsAlong d cs →
            area pos' ≤ area pos))
    ∧ (∀ (contents : PossibilityContents) (fuel : ℕ) (acc : List Choice)
          (pos : Command) (k : ℕ) l pos' kf,
        generateRandomGo lib contents (some d) spacing rng fuel acc pos k =
          .ok (some l, pos', kf) →
        ∃ nw, l = acc ++ nw
          ∧ extentAlong d pos' ≤ extentAlong d pos - sumExtentsAlong d nw
          ∧ (0 ≤ crossExtentAlong d pos → 0 ≤ sumExtentsAlong d nw →
              area pos' ≤ area pos)) := by
  refine ⟨?_, ?_, ?_, ?_⟩
  · intro pos box k2 k3 pos1 hnear hbext hcross hsh
    rcases shrinkPositionByChild_measure d pos box spacing rng k2 hd hnear with
      hnone | ⟨p1, q3, s, hsh2, hps, hext1, hcross1⟩
    · simp [hnone] at hsh
    · rw [hsh2] at hsh
      simp only [Option.some.injEq, Prod.mk.injEq] at hsh
      obtain ⟨e1, -⟩ := hsh
      rw [← e1]
      have hs0 : 0 ≤ s := hsp _ _ _ hps
      exact area_le_of_extent d pos p1 (boxExtentAlong d box + s)
        (le_of_eq hext1) hcross1 hcross (by linarith)
  · intro cl pos k hcl cs pos' kf h
    obtain ⟨hext, hcross⟩ :=
      certainPacking_aux gen lib d spacing rng hd hsp cl pos k hcl cs pos' kf h
    exact ⟨hext, fun hc hsum => area_le_of_extent d pos pos' _ hext hcross hc hsum⟩
  · intro children fuel i pos k cs pos' kf h
    obtain ⟨hext, hcross⟩ :=
      repeatPacking_aux gen lib children d spacing rng hd hsp fuel i pos k
        cs pos' kf h
    exact ⟨hext, fun hc hsum => area_le_of_extent d pos pos' _ hext hcross hc hsum⟩
  · intro contents fuel acc pos k l pos' kf h
    obtain ⟨nw, hl, hext, hcross⟩ :=
      randomPacking_aux lib contents d spacing rng hd hsp fuel acc pos k
        l pos' kf h
    exact ⟨nw, hl, hext,
      fun hc hsum => area_le_of_extent d pos pos' _ hext hcross hc hsum⟩

/-- The host of the counterexample after packing one child along direction
bottom: the position grew upward to `top = 15`. -/
def shrunkHostFx : Command := { top := 15, right := 10, bottom := 0, left := 0 }

/-- C5 counterexample: packing the parsed 5 × 5 child into the 10 × 10 host
along direction bottom *raises* `top` to 15 (`position.top = child.bottom −
spacing` with `child.bottom = 15`), so the remaining position's area grows
from 100 to 150 — `shrinkPositionByChild` is not monotonic for every
direction. -/
theorem shrinkPositionByChild_area_counterexample :
    ((parseChoice cexSchema cexChoice cexHost (some Direction.bottom)
        (fun _ => 0) 0).map fun p =>
      shrinkPositionByChild cexHost p.1 (some Direction.bottom)
        (Spacing.num 0) (fun _ => 0) p.2) = some (some (shrunkHostFx, 0))
    ∧ area shrunkHostFx = 150 ∧ area cexHost = 100
    ∧ ¬(area shrunkHostFx ≤ area cexHost) := by
  refine ⟨?_, by norm_num [area, shrunkHostFx], by norm_num [area, cexHost], ?_⟩
  · simp [parseChoice, resolveArguments, cexChoice, cexSchema, cexHost,
      ensureSizingOnChoice, collapseAlongDirection, applySnapOnChoice,
      applyStretchOnChoice, shrinkPositionByChild, parseSpacingNum,
      parseSpacing, spacingFalsy, shrunkHostFx] <;> norm_num
  · norm_num [area, shrunkHostFx, cexHost]

/-- A stub recursive generator (the packing measurements hold for any
`gen`, since `gen` never touches the position). -/
def genNone : Option String → Command → ℕ → Res (Option Choice × ℕ) :=
  fun _ _ k => .ok (none, k)

/-- The 30 × 10 host used by the Certain-run witness. -/
def certainPosFx : Command := { top := 10, right := 30, bottom := 0, left := 0 }

/-- The two Known children of `demoLib`'s row schema. -/
def certainChildrenFx : List PossibilityChild :=
  [{ title := "a", type := .Known }, { title := "b", type := .Known }]

/-- The box the Certain run parses for child "a". -/
def certainBoxAFx : ChoiceBox :=
  { title := some "a", type := some ChildType.Known, width := some 10,
    height := some 10, top := 10, right := 10, bottom := 0, left := 0 }

/-- The box the Certain run parses for child "b". -/
def certainBoxBFx : ChoiceBox :=
  { title := some "b", type := some ChildType.Known, width := some 20,
    height := some 10, top := 10, right := 30, bottom := 0, left := 10 }

/-- The concrete Certain run used by the witness, evaluated. -/
theorem certainRunFx :
    generateCertainGo genNone demoLib (some Direction.right) (Spacing.num 0)
      (fun _ => 0) certainChildrenFx certainPosFx 0 =
    .ok ([Choice.node certainBoxAFx none none,
          Choice.node certainBoxBFx none none],
      { top := 10, right := 30, bottom := 0, left := 30 }, 0) := by
  simp [generateCertainGo, genNone, demoLib, certainChildrenFx, certainPosFx,
    parseChoice, resolveArguments, ensureSizingOnChoice,
    collapseAlongDirection, applySnapOnChoice, applyStretchOnChoice,
    shrinkPositionByChild, parseSpacingNum, parseSpacing, spacingFalsy,
    certainBoxAFx, certainBoxBFx] <;> norm_num


theorem packing_monotone_topRight_witness :
    ((Direction.right = Direction.top ∨ Direction.right = Direction.right)
      ∧ (∀ k n k', parseSpacingNum (Spacing.num 0) (fun _ => 0) k =
          some (n, k') → (0 : ℚ) ≤ n))
    ∧ (extentAlong Direction.right
          { top := 10, right := 30, bottom := 0, left := 30 } ≤
        extentAlong Direction.right certainPosFx -
          sumExtentsAlong Direction.right
            [Choice.node certainBoxAFx none none,
             Choice.node certainBoxBFx none none]
      ∧ (0 ≤ crossExtentAlong Direction.right certainPosFx →
          0 ≤ sumExtentsAlong Direction.right
            [Choice.node certainBoxAFx none none,
             Choice.node certainBoxBFx none none] →
          area { top := 10, right := 30, bottom := 0, left := 30 } ≤
            area certainPosFx)) :=
  ⟨⟨Or.inr rfl, fun k n k' h => by
      rw [parseSpacingNum_num] at h
      simp only [Option.some.injEq, Prod.mk.injEq] at h
      exact le_of_eq h.1⟩,
    (packing_monotone_topRight genNone demoLib Direction.right (Spacing.num 0)
        (fun _ => 0) (Or.inr rfl)
        (fun k n k' h => by
          rw [parseSpacingNum_num] at h
          simp only [Option.some.injEq, Prod.mk.injEq] at h
          exact le_of_eq h.1)).2.1
      certainChildrenFx certainPosFx 0
      (by
        intro c hc
        rcases List.mem_cons.mp hc with rfl | hc2
        · decide
        · rcases List.mem_cons.mp hc2 with rfl | hc3
          · decide
          · exact absurd hc3 (List.not_mem_nil c))
      [Choice.node certainBoxAFx none none, Choice.node certainBoxBFx none none]
      { top := 10, right := 30, bottom := 0, left := 30 } 0 certainRunFx⟩

/-- Store evolution that can only extend the heap: every cell allocated in
`s` is unchanged in `s'`. -/
def FrameAll (s s' : Store) : Prop :=
  s.length ≤ s'.length ∧ ∀ i, i < s.length → s'.get? i = s.get? i

/-- Store evolution that may also write through the single reference `m`:
every other pre-existing cell is unchanged. -/
def FrameAt (m : ℕ) (s s' : Store) : Prop :=
  s.length ≤ s'.length ∧ ∀ i, i < s.length → i ≠ m → s'.get? i = s.get? i

theorem frameAll_refl (s : Store) : FrameAll s s :=
  ⟨le_refl _, fun _ _ => rfl⟩

theorem frameAt_refl (m : ℕ) (s : Store) : FrameAt m s s :=
  ⟨le_refl _, fun _ _ _ => rfl⟩

theorem frameAll_frameAt (m : ℕ) {s s' : Store} (h : FrameAll s s') :
    FrameAt m s s' :=
  ⟨h.1, fun i hi _ => h.2 i hi⟩

theorem frameAll_trans {a b c : Store} (h1 : FrameAll a b) (h2 : FrameAll b c) :
    FrameAll a c :=
  ⟨le_trans h1.1 h2.1, fun i hi => (h2.2 i (lt_of_lt_of_le hi h1.1)).trans (h1.2 i hi)⟩

theorem frameAt_trans (m : ℕ) {a b c : Store} (h1 : FrameAt m a b)
    (h2 : FrameAt m b c) : FrameAt m a c :=
  ⟨le_trans h1.1 h2.1, fun i hi hm =>
    (h2.2 i (lt_of_lt_of_le hi h1.1) hm).trans (h1.2 i hi hm)⟩

theorem frameAll_frameAt_trans (m : ℕ) {a b c : Store} (h1 : FrameAll a b)
    (h2 : FrameAt m b c) : FrameAt m a c :=
  frameAt_trans m (frameAll_frameAt m h1) h2

theorem frameAt_frameAll_trans (m : ℕ) {a b c : Store} (h1 : FrameAt m a b)
    (h2 : FrameAll b c) : FrameAt m a c :=
  frameAt_trans m h1 (frameAll_frameAt m h2)

theorem frameAll_append (s : Store) (x : Command) : FrameAll s (s ++ [x]) :=
  ⟨by simp, fun i hi => List.get?_append hi⟩

theorem frameAt_set (m : ℕ) (s : Store) (v : Command) :
    FrameAt m s (s.set m v) :=
  ⟨by simp, fun i hi hm => List.get?_set_ne v s (Ne.symm hm)⟩

theorem frameAt_ge (m : ℕ) {s s' : Store} (hm : s.length ≤ m)
    (h : FrameAt m s s') : FrameAll s s' :=
  ⟨h.1, fun i hi => h.2 i hi (by omega)⟩


/-- The store-passing Certain loop writes only through the position
reference `m` it is packing into (besides fresh allocations), provided the
recursive generator has the pure-extension property. -/
theorem sGenerateCertainGo_frame
    (sGen : Option String → ℕ → Store → ℕ → Res (Option Choice × ℕ) × Store)
    (hgen : ∀ n r st kk, FrameAll st (sGen n r st kk).2)
    (lib : Library) (direction : Option Direction) (spacing : Spacing)
    (rng : Rng) :
    ∀ (cl : List PossibilityChild) (m : ℕ) (store : Store) (k : ℕ),
      FrameAt m store
        (sGenerateCertainGo sGen lib direction spacing rng cl m store k).2
  | [], m, store, _ => frameAt_refl m store
  | choice :: rest, m, store, k => by
    rw [sGenerateCertainGo]
    by_cases hf : choice.type = ChildType.Final
    · rw [if_pos hf]
      cases hsrc : choice.source.bind lib with
      | none => exact frameAt_refl m store
      | some src =>
        dsimp only
        have hrest := sGenerateCertainGo_frame sGen hgen lib direction
          spacing rng rest m store k
        cases hgo : sGenerateCertainGo sGen lib direction spacing rng rest m store k with
        | mk res sf =>
          rw [hgo] at hrest
          cases res <;> exact hrest
    · rw [if_neg hf]
      cases hlib : lib choice.title with
      | none => exact frameAt_refl m store
      | some schema =>
        dsimp only
        cases hp : parseChoice schema choice (storeRead store m) direction rng k with
        | none => exact frameAt_refl m store
        | some v =>
          obtain ⟨box, k1⟩ := v
          dsimp only
          by_cases hk : choice.type = ChildType.Known
          · rw [if_pos hk]
            dsimp only
            cases hsh : shrinkPositionByChild (storeRead store m) box direction spacing rng k1 with
            | none => exact frameAt_refl m store
            | some v2 =>
              obtain ⟨p1, k3⟩ := v2
              dsimp only
              have hset : FrameAt m store (store.set m p1) := frameAt_set m store p1
              have hrest := sGenerateCertainGo_frame sGen hgen lib direction
                spacing rng rest m (store.set m p1) k3
              cases hgo : sGenerateCertainGo sGen lib direction spacing rng rest m (store.set m p1) k3 with
              | mk res sf =>
                rw [hgo] at hrest
                have hcomb := frameAt_trans m hset hrest
                cases res <;> exact hcomb
          · rw [if_neg hk]
            cases hg : sGen (some choice.title) m store k1 with
            | mk res1 s1 =>
              have hs1 : FrameAt m store s1 := by
                have hall := hgen (some choice.title) m store k1
                rw [hg] at hall
                exact frameAll_frameAt m hall
              cases res1 with
              | err msg => exact hs1
              | ranOut => exact hs1
              | ok v1 =>
                obtain ⟨cc, k2⟩ := v1
                dsimp only
                cases hsh : shrinkPositionByChild (storeRead s1 m) box direction spacing rng k2 with
                | none => exact hs1
                | some v2 =>
                  obtain ⟨p1, k3⟩ := v2
                  dsimp only
                  have hset : FrameAt m s1 (s1.set m p1) := frameAt_set m s1 p1
                  have hrest := sGenerateCertainGo_frame sGen hgen lib direction
                    spacing rng rest m (s1.set m p1) k3
                  cases hgo : sGenerateCertainGo sGen lib direction spacing rng rest m (s1.set m p1) k3 with
                  | mk res sf =>
                    rw [hgo] at hrest
                    have hcomb := frameAt_trans m hs1 (frameAt_trans m hset hrest)
                    cases res <;> exact hcomb


/-- The store-passing Repeat loop writes only through its position
reference `m`. -/
theorem sGenerateRepeatGo_frame
    (sGen : Option String → ℕ → Store → ℕ → Res (Option Choice × ℕ) × Store)
    (hgen : ∀ n r st kk, FrameAll st (sGen n r st kk).2)
    (lib : Library) (children : List PossibilityChild)
    (direction : Option Direction) (spacing : Spacing) (rng : Rng) :
    ∀ (fuel i m : ℕ) (store : Store) (k : ℕ),
      FrameAt m store
        (sGenerateRepeatGo sGen lib children direction spacing rng fuel i m store k).2
  | 0, _, m, store, _ => frameAt_refl m store
  | fuel + 1, i, m, store, k => by
    rw [sGenerateRepeatGo]
    by_cases hpos : positionIsNotEmpty (storeRead store m) direction
    case neg =>
      rw [if_neg hpos]
      exact frameAt_refl m store
    case pos =>
    rw [if_pos hpos]
    cases hci : children.get? i with
    | none => exact frameAt_refl m store
    | some choice =>
      dsimp only
      by_cases hf : choice.type = ChildType.Final
      · rw [if_pos hf]
        cases hsrc : choice.source.bind lib with
        | none => exact frameAt_refl m store
        | some src =>
          dsimp only
          by_cases hfits : choiceFitsPosition
            (parseChoiceFinal src choice (storeRead store m)) (storeRead store m)
          · rw [if_pos hfits]
            cases hsh : shrinkPositionByChild (storeRead store m)
                (parseChoiceFinal src choice (storeRead store m)) direction spacing rng k with
            | none => exact frameAt_refl m store
            | some v2 =>
              obtain ⟨p1, k3⟩ := v2
              dsimp only
              have hset : FrameAt m store (store.set m p1) := frameAt_set m store p1
              have hrest := sGenerateRepeatGo_frame sGen hgen lib children direction
                spacing rng fuel (if i + 1 ≥ children.length then 0 else i + 1) m
                (store.set m p1) k3
              cases hgo : sGenerateRepeatGo sGen lib children direction spacing rng fuel
                  (if i + 1 ≥ children.length then 0 else i + 1) m (store.set m p1) k3 with
              | mk res sf =>
                rw [hgo] at hrest
                have hcomb := frameAt_trans m hset hrest
                cases res <;> exact hcomb
          · rw [if_neg hfits]
            exact frameAt_refl m store
      · rw [if_neg hf]
        cases hlib : lib choice.title with
        | none => exact frameAt_refl m store
        | some schema =>
          dsimp only
          cases hp : parseChoice schema choice (storeRead store m) direction rng k with
          | none => exact frameAt_refl m store
          | some v =>
            obtain ⟨box, k1⟩ := v
            dsimp only
            by_cases hk : choice.type = ChildType.Known
            · rw [if_pos hk]
              dsimp only
              by_cases hfits : choiceFitsPosition box (storeRead store m)
              · rw [if_pos hfits]
                cases hsh : shrinkPositionByChild (storeRead store m) box direction spacing rng k1 with
                | none => exact frameAt_refl m store
                | some v2 =>
                  obtain ⟨p1, k3⟩ := v2
                  dsimp only
                  have hset : FrameAt m store (store.set m p1) := frameAt_set m store p1
                  have hrest := sGenerateRepeatGo_frame sGen hgen lib children direction
                    spacing rng fuel (if i + 1 ≥ children.length then 0 else i + 1) m
                    (store.set m p1) k3
                  cases hgo : sGenerateRepeatGo sGen lib children direction spacing rng fuel
                      (if i + 1 ≥ children.length then 0 else i + 1) m (store.set m p1) k3 with
                  | mk res sf =>
                    rw [hgo] at hrest
                    have hcomb := frameAt_trans m hset hrest
                    cases res <;> exact hcomb
              · rw [if_neg hfits]
                exact frameAt_refl m store
            · rw [if_neg hk]
              cases hg : sGen (some choice.title) m store k1 with
              | mk res1 s1 =>
                have hs1 : FrameAt m store s1 := by
                  have hall := hgen (some choice.title) m store k1
                  rw [hg] at hall
                  exact frameAll_frameAt m hall
                cases res1 with
                | err msg => exact hs1
                | ranOut => exact hs1
                | ok v1 =>
                  obtain ⟨cc, k2⟩ := v1
                  dsimp only
                  by_cases hfits : choiceFitsPosition box (storeRead s1 m)
                  · rw [if_pos hfits]
                    cases hsh : shrinkPositionByChild (storeRead s1 m) box direction spacing rng k2 with
                    | none => exact hs1
                    | some v2 =>
                      obtain ⟨p1, k3⟩ := v2
                      dsimp only
                      have hset : FrameAt m s1 (s1.set m p1) := frameAt_set m s1 p1
                      have hrest := sGenerateRepeatGo_frame sGen hgen lib children direction
                        spacing rng fuel (if i + 1 ≥ children.length then 0 else i + 1) m
                        (s1.set m p1) k3
                      cases hgo : sGenerateRepeatGo sGen lib children direction spacing rng fuel
                          (if i + 1 ≥ children.length then 0 else i + 1) m (s1.set m p1) k3 with
                      | mk res sf =>
                        rw [hgo] at hrest
                        have hcomb := frameAt_trans m hs1 (frameAt_trans m hset hrest)
                        cases res <;> exact hcomb
                  · rw [if_neg hfits]
                    exact hs1

/-- The store-passing Random loop writes only through its position
reference `m`. -/
theorem sGenerateRandomGo_frame (lib : Library)
    (contents : PossibilityContents) (direction : Option Direction)
    (spacing : Spacing) (rng : Rng) :
    ∀ (fuel : ℕ) (acc : List Choice) (m : ℕ) (store : Store) (k : ℕ),
      FrameAt m store
        (sGenerateRandomGo lib contents direction spacing rng fuel acc m store k).2
  | 0, _, m, store, _ => frameAt_refl m store
  | fuel + 1, acc, m, store, k => by
    rw [sGenerateRandomGo]
    by_cases hpos : positionIsNotEmpty (storeRead store m) direction
    case neg =>
      rw [if_neg hpos]
      exact frameAt_refl m store
    case pos =>
    rw [if_pos hpos]
    cases hch : generateChild lib contents (storeRead store m) direction rng k with
    | err msg => exact frameAt_refl m store
    | ranOut => exact frameAt_refl m store
    | ok v =>
      obtain ⟨choice, k'⟩ := v
      cases choice with
      | none => exact frameAt_refl m store
      | some box =>
        dsimp only
        cases hsh : shrinkPositionByChild (storeRead store m) box direction spacing rng k' with
        | none => exact frameAt_refl m store
        | some v2 =>
          obtain ⟨p1, k2⟩ := v2
          dsimp only
          have hset : FrameAt m store (store.set m p1) := frameAt_set m store p1
          by_cases hlim : limitTruthy contents.limit ∧
              (((acc ++ [Choice.node box none none]).length : ℚ) > contents.limit.getD 0)
          · rw [if_pos hlim]
            exact hset
          · rw [if_neg hlim]
            exact frameAt_trans m hset
              (sGenerateRandomGo_frame lib contents direction spacing rng fuel
                (acc ++ [Choice.node box none none]) m (store.set m p1) k2)

/-- The store-passing Multiple loop writes only through its position
reference `m`. -/
theorem sGenerateMultipleGo_frame (lib : Library)
    (direction : Option Direction) (spacing : Spacing) (rng : Rng) :
    ∀ (cl : List PossibilityChild) (m : ℕ) (store : Store) (k : ℕ),
      FrameAt m store
        (sGenerateMultipleGo lib direction spacing rng cl m store k).2
  | [], m, store, _ => frameAt_refl m store
  | choice :: rest, m, store, k => by
    rw [sGenerateMultipleGo]
    cases hlib : lib choice.title with
    | none => exact frameAt_refl m store
    | some schema =>
      dsimp only
      cases hp : parseChoice schema choice (objectCopy (storeRead store m)) direction rng k with
      | none => exact frameAt_refl m store
      | some v =>
        obtain ⟨box, k1⟩ := v
        dsimp only
        cases direction with
        | none =>
          dsimp only
          have hrest := sGenerateMultipleGo_frame lib none spacing rng rest m store k1
          cases hgo : sGenerateMultipleGo lib none spacing rng rest m store k1 with
          | mk res sf =>
            rw [hgo] at hrest
            cases res <;> exact hrest
        | some d =>
          dsimp only
          cases hmv : movePositionBySpacing (storeRead store m) d spacing rng k1 with
          | none => exact frameAt_refl m store
          | some v2 =>
            obtain ⟨p1, k2⟩ := v2
            dsimp only [Option.map]
            have hset : FrameAt m store (store.set m p1) := frameAt_set m store p1
            have hrest := sGenerateMultipleGo_frame lib (some d) spacing rng rest m
              (store.set m p1) k2
            cases hgo : sGenerateMultipleGo lib (some d) spacing rng rest m (store.set m p1) k2 with
            | mk res sf =>
              rw [hgo] at hrest
              have hcomb := frameAt_trans m hset hrest
              cases res <;> exact hcomb



/-- Writes through a reference at or beyond the original frontier leave
every original cell intact. -/
theorem frameAt_out (m : ℕ) {store store1 s2 : Store}
    (hm : store.length ≤ m) (h1 : FrameAll store store1)
    (h2 : FrameAt m store1 s2) : FrameAll store s2 :=
  ⟨le_trans h1.1 h2.1, fun i hi =>
    (h2.2 i (lt_of_lt_of_le hi h1.1) (by omega)).trans (h1.2 i hi)⟩

/-- `sGenerateChildren` allocates the merged working object as a fresh
cell and mutates only it: every object that existed before the call is
unchanged. -/
theorem sGenerateChildren_frame
    (sGen : Option String → ℕ → Store → ℕ → Res (Option Choice × ℕ) × Store)
    (hgen : ∀ n r st kk, FrameAll st (sGen n r st kk).2)
    (loopFuel : ℕ) (lib : Library) (schema : Possibility) (p : ℕ)
    (store : Store) (direction : Option Direction) (rng : Rng) (k : ℕ) :
    FrameAll store
      (sGenerateChildren sGen loopFuel lib schema p store direction rng k).2 := by
  have happ : FrameAll store (store ++ [objectMerge schema (storeRead store p)]) :=
    frameAll_append store _
  unfold sGenerateChildren
  dsimp only
  cases hmode : schema.contents.mode with
  | Random =>
    cases hgo : sGenerateRandomGo lib schema.contents
        (resolveDirection schema.contents.direction direction)
        (schema.contents.spacing.getD (Spacing.num 0)) rng loopFuel []
        store.length (store ++ [objectMerge schema (storeRead store p)]) k with
    | mk res sf =>
      have hframe := sGenerateRandomGo_frame lib schema.contents
        (resolveDirection schema.contents.direction direction)
        (schema.contents.spacing.getD (Spacing.num 0)) rng loopFuel []
        store.length (store ++ [objectMerge schema (storeRead store p)]) k
      rw [hgo] at hframe
      have hall : FrameAll store sf := frameAt_out store.length (le_refl _) happ hframe
      cases res <;> exact hall
  | Certain =>
    cases hgo : sGenerateCertainGo sGen lib
        (resolveDirection schema.contents.direction direction)
        (schema.contents.spacing.getD (Spacing.num 0)) rng
        schema.contents.children store.length
        (store ++ [objectMerge schema (storeRead store p)]) k with
    | mk res sf =>
      have hframe := sGenerateCertainGo_frame sGen hgen lib
        (resolveDirection schema.contents.direction direction)
        (schema.contents.spacing.getD (Spacing.num 0)) rng
        schema.contents.children store.length
        (store ++ [objectMerge schema (storeRead store p)]) k
      rw [hgo] at hframe
      have hall : FrameAll store sf := frameAt_out store.length (le_refl _) happ hframe
      cases res <;> exact hall
  | Repeat =>
    cases hgo : sGenerateRepeatGo sGen lib schema.contents.children
        (resolveDirection schema.contents.direction direction)
        (schema.contents.spacing.getD (Spacing.num 0)) rng loopFuel 0
        store.length (store ++ [objectMerge schema (storeRead store p)]) k with
    | mk res sf =>
      have hframe := sGenerateRepeatGo_frame sGen hgen lib schema.contents.children
        (resolveDirection schema.contents.direction direction)
        (schema.contents.spacing.getD (Spacing.num 0)) rng loopFuel 0
        store.length (store ++ [objectMerge schema (storeRead store p)]) k
      rw [hgo] at hframe
      have hall : FrameAll store sf := frameAt_out store.length (le_refl _) happ hframe
      cases res <;> exact hall
  | Multiple =>
    cases hgo : sGenerateMultipleGo lib
        (resolveDirection schema.contents.direction direction)
        (schema.contents.spacing.getD (Spacing.num 0)) rng
        schema.contents.children store.length
        (store ++ [objectMerge schema (storeRead store p)]) k with
    | mk res sf =>
      have hframe := sGenerateMultipleGo_frame lib
        (resolveDirection schema.contents.direction direction)
        (schema.contents.spacing.getD (Spacing.num 0)) rng
        schema.contents.children store.length
        (store ++ [objectMerge schema (storeRead store p)]) k
      rw [hgo] at hframe
      have hall : FrameAll store sf := frameAt_out store.length (le_refl _) happ hframe
      cases res <;> exact hall

/-- `sGenerate` never writes to a pre-existing object: it reads the
caller's command, allocates a shallow copy, and all packing mutation goes
through the fresh merged object (recursively at every depth). -/
theorem sGenerate_frame :
    ∀ (fuel : ℕ) (lib : Library) (name : Option String) (r : ℕ)
      (store : Store) (rng : Rng) (k : ℕ),
      FrameAll store (sGenerate fuel lib name r store rng k).2
  | 0, _, _, _, store, _, _ => frameAll_refl store
  | fuel + 1, lib, name, r, store, rng, k => by
    rw [sGenerate]
    cases hname : name.bind lib with
    | none => exact frameAll_refl store
    | some schema =>
      dsimp only
      exact frameAll_trans (frameAll_append store _)
        (sGenerateChildren_frame _
          (fun n rr st kk => sGenerate_frame fuel lib n rr st rng kk) fuel lib
          schema store.length (store ++ [objectCopy (storeRead store r)]) none
          rng k)

/-- C9: for every call `generate(name, command)`, the object the caller
passed as `command` is unchanged when `generate` returns — the driver
copies it before any mode generator runs, and all packing mutation is
applied only to working copies, never to the caller's argument. -/
theorem sGenerate_preserves_command (fuel : ℕ) (lib : Library)
    (name : Option String) (r : ℕ) (store : Store) (rng : Rng) (k : ℕ)
    (hr : r < store.length) :
    ((sGenerate fuel lib name r store rng k).2).get? r = store.get? r :=
  (sGenerate_frame fuel lib name r store rng k).2 r hr

theorem sGenerate_preserves_command_witness :
    0 < ([demoCommand] : Store).length ∧
    ((sGenerate 5 demoLib (some "row") 0 [demoCommand] (fun _ => 0) 0).2).get? 0 =
      ([demoCommand] : Store).get? 0 :=
  ⟨by decide, sGenerate_preserves_command 5 demoLib (some "row") 0 [demoCommand]
    (fun _ => 0) 0 (by decide)⟩

end WorldSeedr
